import Mathlib

/-!
# Arduino acquisition firmware (`src/arduino.c`)

A shallow embedding of the firmware: the command loop `loop`, the sampler
`acquireData` and the least-squares routine `linearRegression`.

* The three globals `action`, `sensorPin`, `timestep`, the pending serial input
  and the trace of external effects form the machine state `Machine`.
* The things `Arduino.h` provides (the pin constants `A0..A5`, `analogRead`,
  `Serial.parseInt`, the `int` product, `sqrt`) are fields of `Env`.
* `float` operations are read as the operations of a field `F`.
* An array access outside its bounds is undefined behaviour: `loop` returns `none`.
* The argument of `delay` is recorded as the callee receives it, converted to
  `unsigned long`.
-/

namespace Arduino

/-- One byte of the serial line. -/
abbrev Byte := Fin 256

/-- Enumerator `STOP_ACQUISITION = 1` of `enum ActionCode`. -/
def STOP_ACQUISITION : Int := 1
/-- Enumerator `START_ACQUISITION = 2` of `enum ActionCode`. -/
def START_ACQUISITION : Int := 2
/-- Enumerator `ACQUIRING_DATA = 3` of `enum ActionCode`. -/
def ACQUIRING_DATA : Int := 3
/-- Enumerator `SET_TIMESTEP = 4` of `enum ActionCode`. -/
def SET_TIMESTEP : Int := 4

/-- The record `arduinoData`: three `float` fields in declaration order. -/
structure arduinoData (F : Type) where
  slope : F
  intercept : F
  uncertainty : F

/-- The value of `sizeof(arduinoData)`: three 4-byte `float` fields. -/
def sizeofArduinoData : Nat := 3 * 4

/-- The four accumulators of the first loop of `linearRegression`. -/
structure Sums (F : Type) where
  sumX : F
  sumY : F
  sumXY : F
  sumX2 : F

/-- An external effect performed by the firmware, in program order. -/
inductive Event (F : Type) where
  | analogRead (pin : Int) (value : Int)
  | delay (ms : Int)
  | write (results : arduinoData F) (size : Nat)

/-- What the board support package supplies to the sketch. -/
structure Env (F : Type) where
  /-- The constants `A0, ..., A5` that initialise `pins`. -/
  pins : Fin 6 → Int
  /-- The call `analogRead(pin)`: the reading returned by the `n`-th call overall. -/
  analogRead : Nat → Int → Int
  /-- The call `Serial.parseInt()` on the pending input: the value, as converted to `int`,
  and the input left over. -/
  parseInt : List Byte → Int × List Byte
  /-- The target's `int * int`. -/
  imul : Int → Int → Int
  /-- The target's `sqrt`. -/
  sqrt : F → F

/-- The globals of the sketch together with the serial input still pending, the
number of analog reads made so far and the trace of effects. -/
structure Machine (F : Type) where
  action : Int
  sensorPin : Int
  timestep : Int
  rx : List Byte
  nreads : Nat
  trace : List (Event F)

/-- The state after `setup()`: `action` is zero-initialised, `sensorPin = 0`,
`timestep = 1000`. -/
def startup (F : Type) (rx : List Byte) : Machine F :=
  { action := 0, sensorPin := 0, timestep := 1000, rx := rx, nreads := 0, trace := [] }

/-- The call `Serial.available()`: the number of pending bytes. -/
def serialAvailable (rx : List Byte) : Int := rx.length

/-- The call `Serial.read()`: the first pending byte, or `-1` when none is pending. -/
def serialRead : List Byte → Int × List Byte
  | [] => (-1, [])
  | b :: rest => ((b.val : Int), rest)

/-- The access `pins[c]` into the 6-entry table; `none` outside the bounds. -/
def pinsAt (pins : Fin 6 → Int) (c : Int) : Option Int :=
  if h : 0 ≤ c ∧ c < 6 then some (pins ⟨c.toNat, by omega⟩) else none

section Trace

variable {F : Type}

/-- Number of `analogRead` calls in a trace. -/
def countReads : List (Event F) → Nat
  | [] => 0
  | Event.analogRead _ _ :: es => countReads es + 1
  | _ :: es => countReads es

/-- Number of bytes written to the serial line in a trace. -/
def bytesWritten : List (Event F) → Nat
  | [] => 0
  | Event.write _ size :: es => bytesWritten es + size
  | _ :: es => bytesWritten es

/-- Number of result records written in a trace. -/
def countWrites : List (Event F) → Nat
  | [] => 0
  | Event.write _ _ :: es => countWrites es + 1
  | _ :: es => countWrites es

/-- The pins passed to `analogRead` in a trace, in program order. -/
def sampledPins : List (Event F) → List Int
  | [] => []
  | Event.analogRead pin _ :: es => pin :: sampledPins es
  | _ :: es => sampledPins es

/-- The arguments of the `delay` calls in a trace, in program order. -/
def requestedDelays : List (Event F) → List Int
  | [] => []
  | Event.delay ms :: es => ms :: requestedDelays es
  | _ :: es => requestedDelays es

/-- The object representation of an `arduinoData`: the bytes of its three `float`
fields in declaration order, each field encoded by `enc`. -/
def recordBytes (enc : F → List Byte) (r : arduinoData F) : List Byte :=
  enc r.slope ++ enc r.intercept ++ enc r.uncertainty

/-- The bytes a trace puts on the serial line: `Serial.write(p, size)` sends the first
`size` bytes of the object at `p`. -/
def wireBytes (enc : F → List Byte) : List (Event F) → List Byte
  | [] => []
  | Event.write r size :: es => (recordBytes enc r).take size ++ wireBytes enc es
  | _ :: es => wireBytes enc es

end Trace

section Regression

variable {F : Type} [Field F]

/-- Body of the first loop of `linearRegression`, at index `i`. -/
def accumulateStep (imul : Int → Int → Int) (sensorValue : Nat → Int) (s : Sums F) (i : Nat) :
    Sums F :=
  { sumX := s.sumX + ((i : Int) : F)
    sumY := s.sumY + ((sensorValue i : Int) : F)
    sumXY := s.sumXY + ((imul (i : Int) (sensorValue i) : Int) : F)
    sumX2 := s.sumX2 + ((imul (i : Int) (i : Int) : Int) : F) }

/-- First loop of `linearRegression`: accumulate the four sums over `i = 0..127`. -/
def regressionSums (imul : Int → Int → Int) (sensorValue : Nat → Int) : Sums F :=
  (List.range 128).foldl (accumulateStep imul sensorValue)
    { sumX := 0, sumY := 0, sumXY := 0, sumX2 := 0 }

/-- The denominator `128 * sumX2 - sumX * sumX` of the slope. -/
def slopeDenominator (s : Sums F) : F := 128 * s.sumX2 - s.sumX * s.sumX

/-- Body of the second loop of `linearRegression`, at index `i`. -/
def residualStep (slope intercept : F) (sensorValue : Nat → Int) (sumError : F) (i : Nat) : F :=
  let predictedY := slope * ((i : Int) : F) + intercept
  sumError + (((sensorValue i : Int) : F) - predictedY) * (((sensorValue i : Int) : F) - predictedY)

/-- Second loop of `linearRegression`: accumulate the squared residuals. -/
def sumErrorLoop (slope intercept : F) (sensorValue : Nat → Int) : F :=
  (List.range 128).foldl (residualStep slope intercept sensorValue) 0

/-- The argument of `sqrt` in `linearRegression`: `sumError / (128 - 2)`. -/
def radicand (sumError : F) : F := sumError / ((128 - 2 : Int) : F)

/-- Function `linearRegression` of the sketch. -/
def linearRegression (imul : Int → Int → Int) (sqrt : F → F) (sensorValue : Nat → Int) :
    arduinoData F :=
  let s : Sums F := regressionSums imul sensorValue
  let slope := (128 * s.sumXY - s.sumX * s.sumY) / slopeDenominator s
  let intercept := (s.sumY - slope * s.sumX) / 128
  let sumError := sumErrorLoop slope intercept sensorValue
  let uncertainty := sqrt (radicand sumError)
  { slope := slope, intercept := intercept, uncertainty := uncertainty }

/-- The `int` product without overflow. -/
def exactMul (a b : Int) : Int := a * b

/-- The sum of squared residuals of the line `y = a * x + c` against the samples, as the
specification words it: the sum over `i = 0..127` of `(y_i - (a * i + c))^2`. -/
def residualSumOfSquares (sensorValue : Nat → Int) (a c : F) : F :=
  ∑ i in Finset.range 128, (((sensorValue i : Int) : F) - (a * ((i : Nat) : F) + c)) ^ 2

/-- The value of a 16-bit two's-complement `int` holding `x` modulo `2^16`. -/
def wrap16 (x : Int) : Int := (x + 32768) % 65536 - 32768

/-- The `int` product on a target whose `int` has 16 bits, taken modulo `2^16`. -/
def mul16 (a b : Int) : Int := wrap16 (a * b)

/-- The range of a signed 16-bit `int`. -/
def fitsInt16 (x : Int) : Prop := -32768 ≤ x ∧ x ≤ 32767

end Regression

section Control

variable {F : Type} [Field F]

/-- The conversion of the `int` argument of `delay` to its `unsigned long` parameter
(32 bits): a negative value wraps around by `2^32`, which is the value modulo `2^32`
of everything an `int` can hold. -/
def toUnsignedLong (x : Int) : Int := if x < 0 then x + 4294967296 else x

/-- One pass of the sampling loop of `acquireData`: `sensorValue[i] =
analogRead(sensorPin); delay(timestep/128);`. -/
def sampleStep (env : Env F) (mb : Machine F × (Nat → Int)) (i : Nat) :
    Machine F × (Nat → Int) :=
  let value := env.analogRead mb.1.nreads mb.1.sensorPin
  ({ mb.1 with
      nreads := mb.1.nreads + 1
      trace := mb.1.trace ++
        [Event.analogRead mb.1.sensorPin value,
          Event.delay (toUnsignedLong (Int.tdiv mb.1.timestep 128))] },
   fun j => if j = i then value else mb.2 j)

/-- Function `acquireData` of the sketch: 128 paced samples, the fit, one write. -/
def acquireData (env : Env F) (m : Machine F) : Machine F :=
  let mb := (List.range 128).foldl (sampleStep env) (m, fun _ => 0)
  let results := linearRegression env.imul env.sqrt mb.2
  { mb.1 with trace := mb.1.trace ++ [Event.write results sizeofArduinoData] }

/-- First statement of `loop`: `if (Serial.available() > 0) action = Serial.read();`. -/
def pollCommand (m : Machine F) : Machine F :=
  if 0 < serialAvailable m.rx then
    { m with action := (serialRead m.rx).1, rx := (serialRead m.rx).2 }
  else m

/-- Second statement of `loop`: `if (action == START_ACQUISITION) { sensorPin =
pins[Serial.read()]; action = ACQUIRING_DATA; }`. -/
def startStage (env : Env F) (m : Machine F) : Option (Machine F) :=
  if m.action = START_ACQUISITION then
    (pinsAt env.pins (serialRead m.rx).1).map fun pin =>
      { m with sensorPin := pin, action := ACQUIRING_DATA, rx := (serialRead m.rx).2 }
  else some m

/-- Third statement of `loop`: `if (action == ACQUIRING_DATA) acquireData();`. -/
def acquireStage (env : Env F) (m : Machine F) : Machine F :=
  if m.action = ACQUIRING_DATA then acquireData env m else m

/-- Fourth statement of `loop`: `if (action == SET_TIMESTEP) { timestep =
Serial.parseInt(); action = ACQUIRING_DATA; }`. -/
def timestepStage (env : Env F) (m : Machine F) : Machine F :=
  if m.action = SET_TIMESTEP then
    { m with
        timestep := (env.parseInt m.rx).1
        action := ACQUIRING_DATA
        rx := (env.parseInt m.rx).2 }
  else m

/-- Function `loop` of the sketch, one iteration: its four statements in order. -/
def loop (env : Env F) (m : Machine F) : Option (Machine F) :=
  (startStage env (pollCommand m)).map fun m2 => timestepStage env (acquireStage env m2)

/-- Repeated iterations of `loop`; the `k`-th list holds the bytes that arrive
before the `k`-th iteration polls the line. -/
def run (env : Env F) : List (List Byte) → Machine F → Option (Machine F)
  | [], m => some m
  | arrival :: later, m => (loop env { m with rx := m.rx ++ arrival }).bind (run env later)

/-- The `k`-th reading of the acquisition cycle started in state `m`. -/
def reading (env : Env F) (m : Machine F) (k : Nat) : Int :=
  env.analogRead (m.nreads + k) m.sensorPin

/-- The effects of the first `n` passes of the sampling loop started in state `m`, as
the specification describes them: a read of the selected pin, then a delay of
`timestep / 128` (as `delay` receives it), for `k = 0, ..., n - 1` in this order. -/
def samplingEvents (env : Env F) (m : Machine F) : Nat → List (Event F)
  | 0 => []
  | k + 1 => samplingEvents env m k ++
      [Event.analogRead m.sensorPin (reading env m k),
        Event.delay (toUnsignedLong (Int.tdiv m.timestep 128))]

/-- The sample buffer the specification describes for the cycle started in state `m`:
the `k`-th reading at index `k`, for `k = 0, ..., 127`. -/
def sampleBuffer (env : Env F) (m : Machine F) (k : Nat) : Int :=
  if k < 128 then reading env m k else 0

/-- The states the sketch can be in between two iterations: those that some sequence of
iterations, each of them defined, produces from the state after `setup()` on some
serial input. An iteration is undefined when it indexes `pins` out of bounds, that is
when START_ACQUISITION is followed by a channel byte outside `0..5` or by none. -/
def Reachable (env : Env F) (m : Machine F) : Prop :=
  ∃ (rx0 : List Byte) (arrivals : List (List Byte)), run env arrivals (startup F rx0) = some m

/-- A concrete board, used to instantiate the results: `A0..A5` are `14..19`, every
analog reading is `512`, `Serial.parseInt` yields `500` and empties the input. -/
def demoEnv (sqrt : F → F) : Env F :=
  { pins := fun i => 14 + (i.val : Int)
    analogRead := fun _ _ => 512
    parseInt := fun _ => (500, [])
    imul := exactMul
    sqrt := sqrt }

end Control

/-! ## The sampler and the command loop -/

section TraceLemmas

variable {F : Type}

theorem countReads_append (xs ys : List (Event F)) :
    countReads (xs ++ ys) = countReads xs + countReads ys := by
  induction xs with
  | nil => simp [countReads]
  | cons e es ih => cases e <;> simp [countReads, ih]; omega

theorem countWrites_append (xs ys : List (Event F)) :
    countWrites (xs ++ ys) = countWrites xs + countWrites ys := by
  induction xs with
  | nil => simp [countWrites]
  | cons e es ih => cases e <;> simp [countWrites, ih]; omega

theorem bytesWritten_append (xs ys : List (Event F)) :
    bytesWritten (xs ++ ys) = bytesWritten xs + bytesWritten ys := by
  induction xs with
  | nil => simp [bytesWritten]
  | cons e es ih => cases e <;> simp [bytesWritten, ih]; omega

/-- The sampling loop run for `n` passes: the globals and the pending input are
untouched, and the trace grows by `n` reads and no write. -/
theorem sampleLoop_frame (env : Env F) (n : Nat) (m : Machine F) (buf : Nat → Int)
    (r : Machine F × (Nat → Int)) (hfold : r = (List.range n).foldl (sampleStep env) (m, buf)) :
    r.1.action = m.action ∧ r.1.sensorPin = m.sensorPin ∧ r.1.timestep = m.timestep ∧
      r.1.rx = m.rx ∧ r.1.nreads = m.nreads + n ∧
      ∃ evs, r.1.trace = m.trace ++ evs ∧ countReads evs = n ∧ countWrites evs = 0 ∧
        bytesWritten evs = 0 := by
  induction n generalizing r with
  | zero => subst hfold; exact ⟨rfl, rfl, rfl, rfl, rfl, [], by simp, rfl, rfl, rfl⟩
  | succ n ih =>
    obtain ⟨ha, hp, ht, hx, hn, evs, he, hr, hw, hb⟩ := ih _ rfl
    rw [List.range_succ, List.foldl_append, List.foldl_cons, List.foldl_nil] at hfold
    generalize (List.range n).foldl (sampleStep env) (m, buf) = q at *
    subst hfold
    refine ⟨ha, hp, ht, hx, ?_,
      evs ++ [Event.analogRead q.1.sensorPin (env.analogRead q.1.nreads q.1.sensorPin),
        Event.delay (toUnsignedLong (Int.tdiv q.1.timestep 128))], ?_, ?_, ?_, ?_⟩
    · simp only [sampleStep]; omega
    · simp only [sampleStep, he, List.append_assoc]
    · simp [countReads_append, hr, countReads]
    · simp [countWrites_append, hw, countWrites]
    · simp [bytesWritten_append, hb, bytesWritten]

/-- The poll with a byte pending: the byte becomes `action` and leaves the input. -/
theorem pollCommand_cons (m : Machine F) (b : Byte) (rest : List Byte) (hrx : m.rx = b :: rest) :
    pollCommand m = { m with action := (b.val : Int), rx := rest } := by
  have hpos : (0 : Int) < serialAvailable (b :: rest) := by
    simp only [serialAvailable, List.length_cons]; omega
  simp only [pollCommand, hrx, hpos, if_true, serialRead]

/-- The poll with nothing pending changes nothing. -/
theorem pollCommand_nil (m : Machine F) (hrx : m.rx = []) : pollCommand m = m := by
  simp [pollCommand, hrx, serialAvailable]

/-- The start statement does nothing unless `action` is START_ACQUISITION. -/
theorem startStage_of_ne (env : Env F) (m : Machine F) (h : m.action ≠ START_ACQUISITION) :
    startStage env m = some m := by
  simp [startStage, h]

/-- The start statement with a byte `c ≤ 5` pending selects `pins[c]`. -/
theorem startStage_valid (env : Env F) (m : Machine F) (c : Byte) (rest : List Byte)
    (hc : c.val ≤ 5) (ha : m.action = START_ACQUISITION) (hrx : m.rx = c :: rest) :
    startStage env m = some
      { m with
          sensorPin := env.pins ⟨c.val, Nat.lt_succ_of_le hc⟩
          action := ACQUIRING_DATA
          rx := rest } := by
  have h : (0 : Int) ≤ (c.val : Int) ∧ (c.val : Int) < 6 := by omega
  simp [startStage, ha, hrx, serialRead, pinsAt, h]

/-- The timestep statement does nothing unless `action` is SET_TIMESTEP. -/
theorem timestepStage_of_ne (env : Env F) (m : Machine F) (h : m.action ≠ SET_TIMESTEP) :
    timestepStage env m = m := by
  simp [timestepStage, h]

/-- The timestep statement on SET_TIMESTEP stores the parsed value and sets
`action` to ACQUIRING_DATA. -/
theorem timestepStage_of_eq (env : Env F) (m : Machine F) (h : m.action = SET_TIMESTEP) :
    timestepStage env m =
      { m with
          timestep := (env.parseInt m.rx).1
          action := ACQUIRING_DATA
          rx := (env.parseInt m.rx).2 } := by
  simp [timestepStage, h]

/-- Appending no arrival leaves the machine as it is. -/
theorem rx_append_nil (m : Machine F) : { m with rx := m.rx ++ [] } = m := by
  cases m; simp

end TraceLemmas

section ControlLemmas

variable {F : Type} [Field F]

/-- One call of `acquireData`: the globals and the pending input are untouched, and
the trace grows by 128 reads and one record of 12 bytes. -/
theorem acquireData_frame (env : Env F) (m : Machine F) :
    (acquireData env m).action = m.action ∧ (acquireData env m).sensorPin = m.sensorPin ∧
      (acquireData env m).timestep = m.timestep ∧ (acquireData env m).rx = m.rx ∧
      (acquireData env m).nreads = m.nreads + 128 ∧
      ∃ evs, (acquireData env m).trace = m.trace ++ evs ∧ countReads evs = 128 ∧
        countWrites evs = 1 ∧ bytesWritten evs = 12 := by
  obtain ⟨ha, hp, ht, hx, hn, evs, he, hr, hw, hb⟩ :=
    sampleLoop_frame env 128 m (fun _ => 0) _ rfl
  generalize hq : (List.range 128).foldl (sampleStep env) (m, fun _ => 0) = q at *
  have hacq : acquireData env m =
      { q.1 with trace := q.1.trace ++
          [Event.write (linearRegression env.imul env.sqrt q.2) sizeofArduinoData] } := by
    simp only [acquireData, hq]
  rw [hacq]
  refine ⟨ha, hp, ht, hx, hn,
    evs ++ [Event.write (linearRegression env.imul env.sqrt q.2) sizeofArduinoData],
    ?_, ?_, ?_, ?_⟩
  · simp only [he, List.append_assoc]
  · simp [countReads_append, hr, countReads]
  · simp [countWrites_append, hw, countWrites]
  · simp [bytesWritten_append, hb, bytesWritten, sizeofArduinoData]

/-- The acquire statement runs `acquireData` when `action` is ACQUIRING_DATA. -/
theorem acquireStage_of_eq (env : Env F) (m : Machine F) (h : m.action = ACQUIRING_DATA) :
    acquireStage env m = acquireData env m := by
  simp [acquireStage, h]

/-- The acquire statement does nothing unless `action` is ACQUIRING_DATA. -/
theorem acquireStage_of_ne (env : Env F) (m : Machine F) (h : m.action ≠ ACQUIRING_DATA) :
    acquireStage env m = m := by
  simp [acquireStage, h]

/-- An iteration whose state after the poll is none of START_ACQUISITION,
ACQUIRING_DATA, SET_TIMESTEP does nothing beyond the poll. -/
theorem loop_of_inert (env : Env F) (m : Machine F)
    (h2 : (pollCommand m).action ≠ START_ACQUISITION)
    (h3 : (pollCommand m).action ≠ ACQUIRING_DATA)
    (h4 : (pollCommand m).action ≠ SET_TIMESTEP) :
    loop env m = some (pollCommand m) := by
  rw [loop, startStage_of_ne env _ h2, Option.map_some', acquireStage_of_ne env _ h3,
    timestepStage_of_ne env _ h4]

/-- With nothing pending and `action` none of the three active codes, an iteration
is the identity, and so is any number of them. -/
theorem run_inert (env : Env F) (m : Machine F) (hrx : m.rx = [])
    (h2 : m.action ≠ START_ACQUISITION) (h3 : m.action ≠ ACQUIRING_DATA)
    (h4 : m.action ≠ SET_TIMESTEP) (k : Nat) :
    run env (List.replicate k []) m = some m := by
  have hp : pollCommand m = m := pollCommand_nil m hrx
  have hl : loop env m = some m := by
    have := loop_of_inert env m (by rwa [hp]) (by rwa [hp]) (by rwa [hp])
    rwa [hp] at this
  induction k with
  | zero => rfl
  | succ k ih => rw [List.replicate_succ, run, rx_append_nil, hl, Option.some_bind, ih]

/-- With nothing pending and `action = ACQUIRING_DATA`, an iteration is exactly one
call of `acquireData`. -/
theorem loop_acquiring_idle_line (env : Env F) (m : Machine F)
    (ha : m.action = ACQUIRING_DATA) (hrx : m.rx = []) :
    loop env m = some (acquireData env m) := by
  obtain ⟨hact, -, -, -, -, -⟩ := acquireData_frame env m
  have hne : (acquireData env m).action ≠ SET_TIMESTEP := by rw [hact, ha]; decide
  have h2 : m.action ≠ START_ACQUISITION := by rw [ha]; decide
  rw [loop, pollCommand_nil m hrx, startStage_of_ne env m h2, Option.map_some',
    acquireStage_of_eq env m ha, timestepStage_of_ne env _ hne]

/-- C1. START_ACQUISITION with a valid channel: whatever the prior state, one
iteration of `loop` on an input that begins with the bytes `2, c` with `c ≤ 5` is
defined, ends with `action = ACQUIRING_DATA` and `sensorPin = pins[c]`, has taken
exactly those two bytes off the input, and leaves `timestep` as it was. -/
theorem loop_start_valid_channel (env : Env F) (m : Machine F) (c : Byte) (rest : List Byte)
    (hc : c.val ≤ 5) (hrx : m.rx = 2 :: c :: rest) :
    ∃ m', loop env m = some m' ∧ m'.action = ACQUIRING_DATA ∧
      m'.sensorPin = env.pins ⟨c.val, Nat.lt_succ_of_le hc⟩ ∧ m'.rx = rest ∧
      m'.timestep = m.timestep := by
  obtain ⟨m2, hm2⟩ : ∃ m2 : Machine F, m2 =
      { m with
          action := ACQUIRING_DATA
          sensorPin := env.pins ⟨c.val, Nat.lt_succ_of_le hc⟩
          rx := rest } := ⟨_, rfl⟩
  obtain ⟨ha, hp, ht, hx, -, -⟩ := acquireData_frame env m2
  have hact : m2.action = ACQUIRING_DATA := by rw [hm2]
  have hstart : startStage env (pollCommand m) = some m2 := by
    rw [pollCommand_cons m 2 (c :: rest) hrx, startStage_valid env _ c rest hc rfl rfl, hm2]
  have hne : (acquireData env m2).action ≠ SET_TIMESTEP := by
    rw [ha, hact]; decide
  refine ⟨acquireData env m2, ?_, ?_, ?_, ?_, ?_⟩
  · rw [loop, hstart, Option.map_some', acquireStage_of_eq env m2 hact,
      timestepStage_of_ne env _ hne]
  · rw [ha, hact]
  · rw [hp, hm2]
  · rw [hx, hm2]
  · rw [ht, hm2]

/-- Instance of C1 from the specification: from the startup state, the input `2, 3`
selects `pins[3]` and starts acquiring. -/
theorem loop_start_valid_channel_witness :
    ((3 : Byte).val ≤ 5 ∧ (startup ℚ [2, 3]).rx = 2 :: 3 :: []) ∧
    ∃ m', loop (demoEnv id) (startup ℚ [2, 3]) = some m' ∧ m'.action = ACQUIRING_DATA ∧
      m'.sensorPin = (demoEnv (id : ℚ → ℚ)).pins ⟨(3 : Byte).val, by decide⟩ ∧ m'.rx = [] ∧
      m'.timestep = (startup ℚ [2, 3]).timestep :=
  ⟨⟨by decide, rfl⟩,
    loop_start_valid_channel (demoEnv id) (startup ℚ [2, 3]) 3 [] (by decide) rfl⟩

/-- C2. Stop latching: whatever the prior state, one iteration of `loop` whose
pending byte is `1` is defined and ends with `action = STOP_ACQUISITION`, that one
byte taken off the input and every other component (including the trace of effects
and the count of analog reads) as before, so no read is made and no byte written;
and once the line is empty, any number of further iterations change nothing. -/
theorem loop_stop_latches (env : Env F) (m : Machine F) (rest : List Byte)
    (hrx : m.rx = 1 :: rest) :
    loop env m = some { m with action := STOP_ACQUISITION, rx := rest } ∧
      countReads ({ m with action := STOP_ACQUISITION, rx := rest } : Machine F).trace
        = countReads m.trace ∧
      bytesWritten ({ m with action := STOP_ACQUISITION, rx := rest } : Machine F).trace
        = bytesWritten m.trace ∧
      ∀ k, run env (List.replicate k []) { m with action := STOP_ACQUISITION, rx := [] }
        = some { m with action := STOP_ACQUISITION, rx := [] } := by
  have hp : pollCommand m = { m with action := STOP_ACQUISITION, rx := rest } :=
    pollCommand_cons m 1 rest hrx
  refine ⟨?_, rfl, rfl, fun k => ?_⟩
  · have h2 : (pollCommand m).action ≠ START_ACQUISITION := by
      rw [hp]; show STOP_ACQUISITION ≠ START_ACQUISITION; decide
    have h3 : (pollCommand m).action ≠ ACQUIRING_DATA := by
      rw [hp]; show STOP_ACQUISITION ≠ ACQUIRING_DATA; decide
    have h4 : (pollCommand m).action ≠ SET_TIMESTEP := by
      rw [hp]; show STOP_ACQUISITION ≠ SET_TIMESTEP; decide
    have := loop_of_inert env m h2 h3 h4
    rwa [hp] at this
  · exact run_inert env _ rfl (show STOP_ACQUISITION ≠ START_ACQUISITION by decide)
      (show STOP_ACQUISITION ≠ ACQUIRING_DATA by decide)
      (show STOP_ACQUISITION ≠ SET_TIMESTEP by decide) k

/-- Instance of C2: an acquiring device that receives the byte `1`. -/
theorem loop_stop_latches_witness :
    (({ startup ℚ [1] with action := ACQUIRING_DATA } : Machine ℚ).rx = 1 :: []) ∧
    (loop (demoEnv id) { startup ℚ [1] with action := ACQUIRING_DATA }
        = some { startup ℚ [1] with action := STOP_ACQUISITION, rx := [] } ∧
      countReads ({ startup ℚ [1] with action := STOP_ACQUISITION, rx := [] } : Machine ℚ).trace
        = countReads ({ startup ℚ [1] with action := ACQUIRING_DATA } : Machine ℚ).trace ∧
      bytesWritten ({ startup ℚ [1] with action := STOP_ACQUISITION, rx := [] } : Machine ℚ).trace
        = bytesWritten ({ startup ℚ [1] with action := ACQUIRING_DATA } : Machine ℚ).trace ∧
      ∀ k, run (demoEnv id) (List.replicate k [])
          { startup ℚ [1] with action := STOP_ACQUISITION, rx := [] }
        = some { startup ℚ [1] with action := STOP_ACQUISITION, rx := [] }) :=
  ⟨rfl, loop_stop_latches (demoEnv id) { startup ℚ [1] with action := ACQUIRING_DATA } [] rfl⟩

/-- C3. Timestep update: whatever the prior state, one iteration of `loop` whose
pending byte is `4` and whose decimal-integer read returns `v` is defined and ends
with `timestep = v` and `action = ACQUIRING_DATA`; `sensorPin`, the count of reads
and the trace are as before, and the input is what the integer read left over. -/
theorem loop_set_timestep (env : Env F) (m : Machine F) (rest rest' : List Byte) (v : Int)
    (hrx : m.rx = 4 :: rest) (hv : env.parseInt rest = (v, rest')) :
    ∃ m', loop env m = some m' ∧ m'.timestep = v ∧ m'.action = ACQUIRING_DATA ∧
      m'.sensorPin = m.sensorPin ∧ m'.rx = rest' ∧ m'.trace = m.trace ∧
      m'.nreads = m.nreads := by
  have hp : pollCommand m = { m with action := SET_TIMESTEP, rx := rest } :=
    pollCommand_cons m 4 rest hrx
  have h2 : (pollCommand m).action ≠ START_ACQUISITION := by
    rw [hp]; show SET_TIMESTEP ≠ START_ACQUISITION; decide
  have h3 : (pollCommand m).action ≠ ACQUIRING_DATA := by
    rw [hp]; show SET_TIMESTEP ≠ ACQUIRING_DATA; decide
  have h4 : (pollCommand m).action = SET_TIMESTEP := by rw [hp]
  have hl : loop env m = some
      { m with timestep := v, action := ACQUIRING_DATA, rx := rest' } := by
    rw [loop, startStage_of_ne env _ h2, Option.map_some', acquireStage_of_ne env _ h3,
      timestepStage_of_eq env _ h4, hp]
    simp [hv]
  exact ⟨_, hl, rfl, rfl, rfl, rfl, rfl, rfl⟩

/-- Instance of C3 from the specification: an acquiring device receives `4` followed by
the characters of `500`, which the integer read returns as 500. -/
theorem loop_set_timestep_witness :
    ((({ startup ℚ [4, 53, 48, 48] with action := ACQUIRING_DATA } : Machine ℚ).rx
        = 4 :: [53, 48, 48]) ∧
      (demoEnv (id : ℚ → ℚ)).parseInt [53, 48, 48] = (500, [])) ∧
    ∃ m', loop (demoEnv id) { startup ℚ [4, 53, 48, 48] with action := ACQUIRING_DATA }
        = some m' ∧ m'.timestep = 500 ∧ m'.action = ACQUIRING_DATA ∧
      m'.sensorPin = ({ startup ℚ [4, 53, 48, 48] with action := ACQUIRING_DATA } : Machine ℚ).sensorPin ∧
      m'.rx = [] ∧
      m'.trace = ({ startup ℚ [4, 53, 48, 48] with action := ACQUIRING_DATA } : Machine ℚ).trace ∧
      m'.nreads = ({ startup ℚ [4, 53, 48, 48] with action := ACQUIRING_DATA } : Machine ℚ).nreads :=
  ⟨⟨rfl, rfl⟩,
    loop_set_timestep (demoEnv id) { startup ℚ [4, 53, 48, 48] with action := ACQUIRING_DATA }
      [53, 48, 48] [] 500 rfl rfl⟩

/-- C4. START_ACQUISITION with the channel byte `9`, or with no channel byte pending
(the read then yields `-1`): the access `pins[...]` falls outside the 6-entry table, so
the iteration has no defined result, whatever the prior state and the board. -/
theorem loop_start_bad_channel_undefined (env : Env F) (m : Machine F) (rest : List Byte) :
    loop env { m with rx := 2 :: 9 :: rest } = none ∧ loop env { m with rx := [2] } = none := by
  have h9 : pinsAt env.pins (((9 : Byte).val : Nat) : Int) = none := by
    have h : ¬ ((0 : Int) ≤ (((9 : Byte).val : Nat) : Int) ∧ (((9 : Byte).val : Nat) : Int) < 6) := by
      decide
    simp only [pinsAt, h, dif_neg, not_false_eq_true]
  have hneg : pinsAt env.pins (-1) = none := by
    have h : ¬ ((0 : Int) ≤ -1 ∧ (-1 : Int) < 6) := by decide
    simp only [pinsAt, h, dif_neg, not_false_eq_true]
  constructor
  · rw [loop, pollCommand_cons _ 2 (9 :: rest) rfl]
    simp only [startStage, START_ACQUISITION, serialRead, h9]
    rfl
  · rw [loop, pollCommand_cons _ 2 [] rfl]
    simp only [startStage, START_ACQUISITION, serialRead, hneg]
    rfl

/-- An unknown opcode is stored: with a pending byte `b` other than `1, 2, 3, 4`, an
iteration of `loop` only moves that byte from the input into `action`. -/
theorem loop_unknown_opcode_stored (env : Env F) (m : Machine F) (b : Byte) (rest : List Byte)
    (hb : b.val ≠ 1 ∧ b.val ≠ 2 ∧ b.val ≠ 3 ∧ b.val ≠ 4) (hrx : m.rx = b :: rest) :
    loop env m = some { m with action := (b.val : Int), rx := rest } := by
  have hp := pollCommand_cons m b rest hrx
  have h2 : (pollCommand m).action ≠ START_ACQUISITION := by
    rw [hp]; show (b.val : Int) ≠ 2; omega
  have h3 : (pollCommand m).action ≠ ACQUIRING_DATA := by
    rw [hp]; show (b.val : Int) ≠ 3; omega
  have h4 : (pollCommand m).action ≠ SET_TIMESTEP := by
    rw [hp]; show (b.val : Int) ≠ 4; omega
  rw [loop_of_inert env m h2 h3 h4, hp]

/-- C5 fails as stated: an acquiring device (`action = ACQUIRING_DATA`) that receives
the unknown byte `7` ends the iteration with `action = 7`, which is not
ACQUIRING_DATA, and has run no cycle (the trace is unchanged). -/
theorem loop_unknown_opcode_counterexample :
    ¬ (∀ m', loop (demoEnv (id : ℚ → ℚ)) { startup ℚ [7] with action := ACQUIRING_DATA }
          = some m' →
        m'.action = ({ startup ℚ [7] with action := ACQUIRING_DATA } : Machine ℚ).action) := by
  intro h
  have hl := loop_unknown_opcode_stored (demoEnv (id : ℚ → ℚ))
    { startup ℚ [7] with action := ACQUIRING_DATA } 7 [] (by decide) rfl
  have := h _ hl
  revert this
  show ((7 : Byte).val : Int) = ACQUIRING_DATA → False
  decide

/-- C5, amended. Whatever the prior state, one iteration of `loop` whose pending byte
`b` is none of `1, 2, 3, 4` is defined, stores `b` in `action`, takes exactly that byte
off the input, and leaves `sensorPin`, `timestep`, the count of reads and the trace as
they were (no cycle runs, nothing is written); from then on, with an empty line, any
number of further iterations change nothing. -/
theorem loop_unknown_opcode (env : Env F) (m : Machine F) (b : Byte) (rest : List Byte)
    (hb : b.val ≠ 1 ∧ b.val ≠ 2 ∧ b.val ≠ 3 ∧ b.val ≠ 4) (hrx : m.rx = b :: rest) :
    ∃ m', loop env m = some m' ∧ m'.action = (b.val : Int) ∧ m'.rx = rest ∧
      m'.sensorPin = m.sensorPin ∧ m'.timestep = m.timestep ∧ m'.nreads = m.nreads ∧
      m'.trace = m.trace ∧
      ∀ k, run env (List.replicate k []) { m' with rx := [] } = some { m' with rx := [] } := by
  refine ⟨_, loop_unknown_opcode_stored env m b rest hb hrx, rfl, rfl, rfl, rfl, rfl, rfl,
    fun k => ?_⟩
  refine run_inert env _ rfl ?_ ?_ ?_ k
  · show (b.val : Int) ≠ 2; omega
  · show (b.val : Int) ≠ 3; omega
  · show (b.val : Int) ≠ 4; omega

/-- Instance of C5 as amended: an acquiring device that receives the byte `7`. -/
theorem loop_unknown_opcode_witness :
    (((7 : Byte).val ≠ 1 ∧ (7 : Byte).val ≠ 2 ∧ (7 : Byte).val ≠ 3 ∧ (7 : Byte).val ≠ 4) ∧
      ({ startup ℚ [7] with action := ACQUIRING_DATA } : Machine ℚ).rx = 7 :: []) ∧
    ∃ m', loop (demoEnv id) { startup ℚ [7] with action := ACQUIRING_DATA } = some m' ∧
      m'.action = ((7 : Byte).val : Int) ∧ m'.rx = [] ∧
      m'.sensorPin = ({ startup ℚ [7] with action := ACQUIRING_DATA } : Machine ℚ).sensorPin ∧
      m'.timestep = ({ startup ℚ [7] with action := ACQUIRING_DATA } : Machine ℚ).timestep ∧
      m'.nreads = ({ startup ℚ [7] with action := ACQUIRING_DATA } : Machine ℚ).nreads ∧
      m'.trace = ({ startup ℚ [7] with action := ACQUIRING_DATA } : Machine ℚ).trace ∧
      ∀ k, run (demoEnv id) (List.replicate k []) { m' with rx := [] }
        = some { m' with rx := [] } :=
  ⟨⟨by decide, rfl⟩,
    loop_unknown_opcode (demoEnv id) { startup ℚ [7] with action := ACQUIRING_DATA } 7 []
      (by decide) rfl⟩

/-- Any number `k` of iterations of an acquiring device on an empty line: the device
is still acquiring with the same channel and timestep, and the trace has grown by
`128 * k` reads and `k` records. -/
theorem run_acquiring_idle_line (env : Env F) (k : Nat) (m : Machine F)
    (ha : m.action = ACQUIRING_DATA) (hrx : m.rx = []) :
    ∃ mk, run env (List.replicate k []) m = some mk ∧ mk.action = ACQUIRING_DATA ∧
      mk.sensorPin = m.sensorPin ∧ mk.timestep = m.timestep ∧ mk.rx = [] ∧
      countReads mk.trace = countReads m.trace + 128 * k ∧
      countWrites mk.trace = countWrites m.trace + k := by
  induction k generalizing m with
  | zero => exact ⟨m, rfl, ha, rfl, rfl, hrx, rfl, rfl⟩
  | succ k ih =>
    obtain ⟨ha1, hp1, ht1, hx1, -, evs, he, hr, hw, -⟩ := acquireData_frame env m
    obtain ⟨mk, hrun, hak, hpk, htk, hxk, hrk, hwk⟩ :=
      ih (acquireData env m) (by rw [ha1, ha]) (by rw [hx1, hrx])
    refine ⟨mk, ?_, hak, by rw [hpk, hp1], by rw [htk, ht1], hxk, ?_, ?_⟩
    · rw [List.replicate_succ, run, rx_append_nil, loop_acquiring_idle_line env m ha hrx,
        Option.some_bind, hrun]
    · rw [hrk, he, countReads_append, hr]; omega
    · rw [hwk, he, countWrites_append, hw]; omega

/-- C6. Continuous acquisition: with `action = ACQUIRING_DATA` and nothing pending, one
iteration of `loop` is defined and performs exactly one acquisition cycle (128 analog
reads, one record written), ending with `action = ACQUIRING_DATA` and `sensorPin`,
`timestep` as before; and `k` such iterations in a row write exactly `k` records. -/
theorem loop_continuous_acquisition (env : Env F) (m : Machine F)
    (ha : m.action = ACQUIRING_DATA) (hrx : m.rx = []) :
    (∃ m' evs, loop env m = some m' ∧ m'.action = ACQUIRING_DATA ∧
      m'.sensorPin = m.sensorPin ∧ m'.timestep = m.timestep ∧
      m'.trace = m.trace ++ evs ∧ countReads evs = 128 ∧ countWrites evs = 1) ∧
    ∀ k, ∃ mk, run env (List.replicate k []) m = some mk ∧ mk.action = ACQUIRING_DATA ∧
      countWrites mk.trace = countWrites m.trace + k := by
  constructor
  · obtain ⟨ha1, hp1, ht1, -, -, evs, he, hr, hw, -⟩ := acquireData_frame env m
    exact ⟨_, evs, loop_acquiring_idle_line env m ha hrx, by rw [ha1, ha], hp1, ht1, he, hr, hw⟩
  · intro k
    obtain ⟨mk, hrun, hak, -, -, -, -, hwk⟩ := run_acquiring_idle_line env k m ha hrx
    exact ⟨mk, hrun, hak, hwk⟩

/-- Instance of C6: the startup globals with `action = ACQUIRING_DATA` and an empty line. -/
theorem loop_continuous_acquisition_witness :
    ((({ startup ℚ [] with action := ACQUIRING_DATA } : Machine ℚ).action = ACQUIRING_DATA) ∧
      ({ startup ℚ [] with action := ACQUIRING_DATA } : Machine ℚ).rx = []) ∧
    ((∃ m' evs, loop (demoEnv id) { startup ℚ [] with action := ACQUIRING_DATA } = some m' ∧
      m'.action = ACQUIRING_DATA ∧
      m'.sensorPin = ({ startup ℚ [] with action := ACQUIRING_DATA } : Machine ℚ).sensorPin ∧
      m'.timestep = ({ startup ℚ [] with action := ACQUIRING_DATA } : Machine ℚ).timestep ∧
      m'.trace = ({ startup ℚ [] with action := ACQUIRING_DATA } : Machine ℚ).trace ++ evs ∧
      countReads evs = 128 ∧ countWrites evs = 1) ∧
    ∀ k, ∃ mk, run (demoEnv id) (List.replicate k [])
        { startup ℚ [] with action := ACQUIRING_DATA } = some mk ∧
      mk.action = ACQUIRING_DATA ∧
      countWrites mk.trace
        = countWrites ({ startup ℚ [] with action := ACQUIRING_DATA } : Machine ℚ).trace + k) :=
  ⟨⟨rfl, rfl⟩,
    loop_continuous_acquisition (demoEnv id) { startup ℚ [] with action := ACQUIRING_DATA }
      rfl rfl⟩

end ControlLemmas

/-! ## The least-squares routine -/

section RegressionLemmas

variable {F : Type} [Field F]

/-- The first loop run for `n` passes computes the four sums over `i < n`. -/
theorem accumulate_fold (imul : Int → Int → Int) (y : Nat → Int) (n : Nat) :
    (List.range n).foldl (accumulateStep imul y)
        ({ sumX := 0, sumY := 0, sumXY := 0, sumX2 := 0 } : Sums F) =
      { sumX := ∑ i in Finset.range n, ((i : Int) : F)
        sumY := ∑ i in Finset.range n, ((y i : Int) : F)
        sumXY := ∑ i in Finset.range n, ((imul (i : Int) (y i) : Int) : F)
        sumX2 := ∑ i in Finset.range n, ((imul (i : Int) (i : Int) : Int) : F) } := by
  induction n with
  | zero => simp
  | succ n ih =>
    rw [List.range_succ, List.foldl_append, ih]
    simp [accumulateStep, Finset.sum_range_succ]

/-- The second loop run for `n` passes computes the sum of the squared residuals over
`i < n`. -/
theorem residual_fold (slope intercept : F) (y : Nat → Int) (n : Nat) :
    (List.range n).foldl (residualStep slope intercept y) 0 =
      ∑ i in Finset.range n, (((y i : Int) : F) - (slope * ((i : Nat) : F) + intercept)) ^ 2 := by
  induction n with
  | zero => simp
  | succ n ih =>
    rw [List.range_succ, List.foldl_append, ih]
    simp [residualStep, Finset.sum_range_succ, sq]

/-- The value `sumError` of the code is the residual sum of squares of the specification. -/
theorem sumErrorLoop_eq (slope intercept : F) (y : Nat → Int) :
    sumErrorLoop slope intercept y = residualSumOfSquares y slope intercept :=
  residual_fold slope intercept y 128

theorem sum_index : (∑ i in Finset.range 128, i) = 8128 := by
  simp [Finset.sum_range_succ]

theorem sum_index_sq : (∑ i in Finset.range 128, i * i) = 690880 := by
  simp [Finset.sum_range_succ]

/-- The accumulator `sumX` after the first loop is `0 + 1 + ... + 127 = 8128`. -/
theorem sumX_eq (imul : Int → Int → Int) (y : Nat → Int) :
    (regressionSums imul y : Sums ℝ).sumX = 8128 := by
  have hc : (∑ i in Finset.range 128, (((i : ℕ) : ℤ) : ℝ))
      = ((∑ i in Finset.range 128, i : ℕ) : ℝ) := by
    push_cast; rfl
  rw [regressionSums, accumulate_fold]
  show (∑ i in Finset.range 128, (((i : ℕ) : ℤ) : ℝ)) = 8128
  rw [hc, sum_index]; norm_num

/-- The accumulator `sumX2` after the first loop, with exact products, is 690880. -/
theorem sumX2_eq (y : Nat → Int) : (regressionSums exactMul y : Sums ℝ).sumX2 = 690880 := by
  have hc : (∑ i in Finset.range 128, ((exactMul (i : ℤ) (i : ℤ) : ℤ) : ℝ))
      = ((∑ i in Finset.range 128, i * i : ℕ) : ℝ) := by
    simp only [exactMul]; push_cast; rfl
  rw [regressionSums, accumulate_fold]
  show (∑ i in Finset.range 128, ((exactMul (i : ℤ) (i : ℤ) : ℤ) : ℝ)) = 690880
  rw [hc, sum_index_sq]; norm_num

/-- The accumulator `sumY` after the first loop. -/
theorem sumY_eq (imul : Int → Int → Int) (y : Nat → Int) :
    (regressionSums imul y : Sums ℝ).sumY = ∑ i in Finset.range 128, ((y i : ℤ) : ℝ) := by
  rw [regressionSums, accumulate_fold]

/-- The accumulator `sumXY` after the first loop, with exact products. -/
theorem sumXY_eq (y : Nat → Int) :
    (regressionSums exactMul y : Sums ℝ).sumXY
      = ∑ i in Finset.range 128, ((i : ℕ) : ℝ) * ((y i : ℤ) : ℝ) := by
  rw [regressionSums, accumulate_fold]
  show (∑ i in Finset.range 128, ((exactMul (i : ℤ) (y i) : ℤ) : ℝ)) = _
  refine Finset.sum_congr rfl fun i _ => ?_
  simp only [exactMul]; push_cast; rfl

/-- The slope denominator, with exact products, is the constant 22368256. -/
theorem slopeDenominator_eq (y : Nat → Int) :
    slopeDenominator (regressionSums exactMul y : Sums ℝ) = 22368256 := by
  rw [slopeDenominator, sumX_eq, sumX2_eq]; norm_num

theorem sum_index_real : (∑ i in Finset.range 128, ((i : ℕ) : ℝ)) = 8128 := by
  have h := congrArg (Nat.cast : ℕ → ℝ) sum_index
  push_cast at h
  exact h

theorem sum_index_sq_real : (∑ i in Finset.range 128, ((i : ℕ) : ℝ) * ((i : ℕ) : ℝ)) = 690880 := by
  have h := congrArg (Nat.cast : ℕ → ℝ) sum_index_sq
  push_cast at h
  exact h

/-- The slope returned, with exact products, in terms of the two data sums. -/
theorem slope_eq (sqrt : ℝ → ℝ) (y : Nat → Int) :
    (linearRegression exactMul sqrt y).slope =
      (128 * (∑ i in Finset.range 128, ((i : ℕ) : ℝ) * ((y i : ℤ) : ℝ))
        - 8128 * ∑ i in Finset.range 128, ((y i : ℤ) : ℝ)) / 22368256 := by
  show (128 * (regressionSums exactMul y : Sums ℝ).sumXY
      - (regressionSums exactMul y : Sums ℝ).sumX * (regressionSums exactMul y : Sums ℝ).sumY)
      / slopeDenominator (regressionSums exactMul y : Sums ℝ) = _
  rw [slopeDenominator_eq, sumX_eq, sumY_eq, sumXY_eq]

/-- The intercept returned, in terms of the slope returned and the sum of the samples. -/
theorem intercept_eq (sqrt : ℝ → ℝ) (y : Nat → Int) :
    (linearRegression exactMul sqrt y).intercept =
      ((∑ i in Finset.range 128, ((y i : ℤ) : ℝ))
        - (linearRegression exactMul sqrt y).slope * 8128) / 128 := by
  show ((regressionSums exactMul y : Sums ℝ).sumY
      - (linearRegression exactMul sqrt y).slope * (regressionSums exactMul y : Sums ℝ).sumX)
      / 128 = _
  rw [sumX_eq, sumY_eq]

/-- The uncertainty returned is `sqrt` of the residual sum of squares of the returned
line divided by 126. -/
theorem uncertainty_eq (imul : Int → Int → Int) (sqrt : F → F) (y : Nat → Int) :
    (linearRegression imul sqrt y).uncertainty =
      sqrt (residualSumOfSquares y (linearRegression imul sqrt y).slope
        (linearRegression imul sqrt y).intercept / 126) := by
  show sqrt (radicand (sumErrorLoop (linearRegression imul sqrt y).slope
    (linearRegression imul sqrt y).intercept y)) = _
  rw [sumErrorLoop_eq, radicand]
  norm_num

/-- The residuals of a line `s * x + t` sum to `ΣY - s * ΣX - 128 * t`. -/
theorem sum_residuals (y : Nat → Int) (s t : ℝ) :
    (∑ i in Finset.range 128, (((y i : ℤ) : ℝ) - (s * ((i : ℕ) : ℝ) + t))) =
      (∑ i in Finset.range 128, ((y i : ℤ) : ℝ)) - s * 8128 - 128 * t := by
  rw [Finset.sum_sub_distrib, Finset.sum_add_distrib, ← Finset.mul_sum, sum_index_real,
    Finset.sum_const, Finset.card_range]
  simp only [nsmul_eq_mul]
  push_cast
  ring

/-- The residuals of a line `s * x + t`, weighted by the index, sum to
`ΣXY - s * ΣX² - t * ΣX`. -/
theorem sum_index_residuals (y : Nat → Int) (s t : ℝ) :
    (∑ i in Finset.range 128, ((i : ℕ) : ℝ) * (((y i : ℤ) : ℝ) - (s * ((i : ℕ) : ℝ) + t))) =
      (∑ i in Finset.range 128, ((i : ℕ) : ℝ) * ((y i : ℤ) : ℝ)) - s * 690880 - t * 8128 := by
  have h : ∀ i ∈ Finset.range 128,
      ((i : ℕ) : ℝ) * (((y i : ℤ) : ℝ) - (s * ((i : ℕ) : ℝ) + t)) =
        ((i : ℕ) : ℝ) * ((y i : ℤ) : ℝ) - (s * (((i : ℕ) : ℝ) * ((i : ℕ) : ℝ)) + t * ((i : ℕ) : ℝ)) :=
    fun i _ => by ring
  rw [Finset.sum_congr rfl h, Finset.sum_sub_distrib, Finset.sum_add_distrib,
    ← Finset.mul_sum, ← Finset.mul_sum, sum_index_real, sum_index_sq_real]
  ring

/-- Normal equations: the residuals of the returned line sum to zero, and so do the
residuals weighted by the index. -/
theorem normal_equations (sqrt : ℝ → ℝ) (y : Nat → Int) :
    (∑ i in Finset.range 128, (((y i : ℤ) : ℝ) -
        ((linearRegression exactMul sqrt y).slope * ((i : ℕ) : ℝ)
          + (linearRegression exactMul sqrt y).intercept))) = 0 ∧
    (∑ i in Finset.range 128, ((i : ℕ) : ℝ) * (((y i : ℤ) : ℝ) -
        ((linearRegression exactMul sqrt y).slope * ((i : ℕ) : ℝ)
          + (linearRegression exactMul sqrt y).intercept))) = 0 := by
  rw [sum_residuals, sum_index_residuals, intercept_eq, slope_eq]
  constructor
  · ring
  · ring

/-- The idealised routine on an exact line: if the 128 samples are `m * i + b` for
integers `m`, `b`, then with products that do not overflow and the `float` operations
read in the reals, `linearRegression` returns slope `m`, intercept `b` and uncertainty
`0`. This is not what the code computes on a 16-bit target, where the products wrap. -/
theorem linearRegression_exact_line (m b : Int) (y : Nat → Int)
    (hy : ∀ i, i < 128 → y i = m * (i : Int) + b) :
    (linearRegression exactMul Real.sqrt y).slope = (m : ℝ) ∧
      (linearRegression exactMul Real.sqrt y).intercept = (b : ℝ) ∧
      (linearRegression exactMul Real.sqrt y).uncertainty = 0 := by
  have hcast : ∀ i ∈ Finset.range 128, ((y i : ℤ) : ℝ) = (m : ℝ) * ((i : ℕ) : ℝ) + (b : ℝ) := by
    intro i hi
    rw [hy i (Finset.mem_range.mp hi)]
    push_cast
    ring
  have hY : (∑ i in Finset.range 128, ((y i : ℤ) : ℝ)) = (m : ℝ) * 8128 + 128 * (b : ℝ) := by
    rw [Finset.sum_congr rfl hcast, Finset.sum_add_distrib, ← Finset.mul_sum, sum_index_real,
      Finset.sum_const, Finset.card_range]
    simp only [nsmul_eq_mul]
    push_cast
    ring
  have hXY : (∑ i in Finset.range 128, ((i : ℕ) : ℝ) * ((y i : ℤ) : ℝ))
      = (m : ℝ) * 690880 + (b : ℝ) * 8128 := by
    have h : ∀ i ∈ Finset.range 128, ((i : ℕ) : ℝ) * ((y i : ℤ) : ℝ) =
        (m : ℝ) * (((i : ℕ) : ℝ) * ((i : ℕ) : ℝ)) + (b : ℝ) * ((i : ℕ) : ℝ) := by
      intro i hi
      rw [hcast i hi]
      ring
    rw [Finset.sum_congr rfl h, Finset.sum_add_distrib, ← Finset.mul_sum, ← Finset.mul_sum,
      sum_index_real, sum_index_sq_real]
  have hs : (linearRegression exactMul Real.sqrt y).slope = (m : ℝ) := by
    rw [slope_eq, hY, hXY]
    field_simp
    ring
  have ht : (linearRegression exactMul Real.sqrt y).intercept = (b : ℝ) := by
    rw [intercept_eq, hs, hY]
    field_simp
  refine ⟨hs, ht, ?_⟩
  rw [uncertainty_eq, hs, ht]
  have hz : residualSumOfSquares y (m : ℝ) (b : ℝ) = 0 := by
    rw [residualSumOfSquares]
    refine Finset.sum_eq_zero fun i hi => ?_
    rw [hcast i hi]
    ring
  rw [hz]
  simp

/-- The flat signal of the specification under the same idealisation: 128 samples of
value 100 give slope 0, intercept 100, uncertainty 0. -/
theorem linearRegression_exact_line_witness :
    (∀ i : Nat, i < 128 → (fun _ : Nat => (100 : Int)) i = 0 * (i : Int) + 100) ∧
    ((linearRegression exactMul Real.sqrt (fun _ => 100)).slope = ((0 : Int) : ℝ) ∧
      (linearRegression exactMul Real.sqrt (fun _ => 100)).intercept = ((100 : Int) : ℝ) ∧
      (linearRegression exactMul Real.sqrt (fun _ => 100)).uncertainty = 0) :=
  ⟨fun i _ => by simp,
    linearRegression_exact_line 0 100 (fun _ => 100) (fun i _ => by simp)⟩

/-- The idealised routine is least-squares optimal: with products that do not overflow
and the `float` operations read in the reals, the line returned by `linearRegression`
has a residual sum of squares no larger than that of any other line `(a, c)`, and the
uncertainty returned is the square root of that sum divided by 126. This is not what
the code computes on a 16-bit target, where the products wrap. -/
theorem linearRegression_least_squares (y : Nat → Int) (a c : ℝ) :
    residualSumOfSquares y (linearRegression exactMul Real.sqrt y).slope
        (linearRegression exactMul Real.sqrt y).intercept
      ≤ residualSumOfSquares y a c ∧
    (linearRegression exactMul Real.sqrt y).uncertainty =
      Real.sqrt (residualSumOfSquares y (linearRegression exactMul Real.sqrt y).slope
        (linearRegression exactMul Real.sqrt y).intercept / 126) := by
  refine ⟨?_, uncertainty_eq exactMul Real.sqrt y⟩
  obtain ⟨h0, h1⟩ := normal_equations Real.sqrt y
  generalize (linearRegression exactMul Real.sqrt y).slope = s at h0 h1 ⊢
  generalize (linearRegression exactMul Real.sqrt y).intercept = t at h0 h1 ⊢
  have hsplit : residualSumOfSquares y a c =
      residualSumOfSquares y s t
        + 2 * (t - c) * (∑ i in Finset.range 128, (((y i : ℤ) : ℝ) - (s * ((i : ℕ) : ℝ) + t)))
        + 2 * (s - a) * (∑ i in Finset.range 128,
            ((i : ℕ) : ℝ) * (((y i : ℤ) : ℝ) - (s * ((i : ℕ) : ℝ) + t)))
        + ∑ i in Finset.range 128, ((s - a) * ((i : ℕ) : ℝ) + (t - c)) ^ 2 := by
    simp only [residualSumOfSquares, Finset.mul_sum, ← Finset.sum_add_distrib]
    refine Finset.sum_congr rfl fun i _ => ?_
    ring
  rw [hsplit, h0, h1]
  have hnn : 0 ≤ ∑ i in Finset.range 128, ((s - a) * ((i : ℕ) : ℝ) + (t - c)) ^ 2 :=
    Finset.sum_nonneg fun i _ => sq_nonneg _
  linarith

/-- C9. Uncertainty non-negativity: for every sample sequence (and whatever the `int`
product), the radicand `sumError / (128 - 2)` that `linearRegression` passes to `sqrt`
is non-negative over exact arithmetic, the uncertainty returned is its square root, and
that is non-negative. -/
theorem linearRegression_uncertainty_nonneg (imul : Int → Int → Int) (y : Nat → Int) :
    0 ≤ radicand (sumErrorLoop (linearRegression imul Real.sqrt y).slope
          (linearRegression imul Real.sqrt y).intercept y) ∧
      (linearRegression imul Real.sqrt y).uncertainty =
        Real.sqrt (radicand (sumErrorLoop (linearRegression imul Real.sqrt y).slope
          (linearRegression imul Real.sqrt y).intercept y)) ∧
      0 ≤ (linearRegression imul Real.sqrt y).uncertainty := by
  refine ⟨?_, rfl, Real.sqrt_nonneg _⟩
  rw [sumErrorLoop_eq, radicand, residualSumOfSquares]
  refine div_nonneg (Finset.sum_nonneg fun i _ => sq_nonneg _) ?_
  norm_num

/-- C10. The slope denominator: for every sample sequence, with exact products, the
first loop leaves `sumX = 8128` and `sumX2 = 690880`, and the denominator
`128 * sumX2 - sumX * sumX` of the slope is `128 * 690880 - 8128 ^ 2 = 22368256`, which
is not zero. -/
theorem linearRegression_denominator_const (y : Nat → Int) :
    (regressionSums exactMul y : Sums ℝ).sumX = 8128 ∧
      (regressionSums exactMul y : Sums ℝ).sumX2 = 690880 ∧
      slopeDenominator (regressionSums exactMul y : Sums ℝ) = 128 * 690880 - 8128 ^ 2 ∧
      slopeDenominator (regressionSums exactMul y : Sums ℝ) = 22368256 ∧
      slopeDenominator (regressionSums exactMul y : Sums ℝ) ≠ 0 := by
  refine ⟨sumX_eq exactMul y, sumX2_eq y, ?_, slopeDenominator_eq y, ?_⟩
  · rw [slopeDenominator_eq]; norm_num
  · rw [slopeDenominator_eq]; norm_num

end RegressionLemmas

/-! ## The acquisition cycle, exactly -/

section CycleLemmas

variable {F : Type}

theorem sampledPins_append (xs ys : List (Event F)) :
    sampledPins (xs ++ ys) = sampledPins xs ++ sampledPins ys := by
  induction xs with
  | nil => simp [sampledPins]
  | cons e es ih => cases e <;> simp [sampledPins, ih]

theorem requestedDelays_append (xs ys : List (Event F)) :
    requestedDelays (xs ++ ys) = requestedDelays xs ++ requestedDelays ys := by
  induction xs with
  | nil => simp [requestedDelays]
  | cons e es ih => cases e <;> simp [requestedDelays, ih]

theorem wireBytes_append (enc : F → List Byte) (xs ys : List (Event F)) :
    wireBytes enc (xs ++ ys) = wireBytes enc xs ++ wireBytes enc ys := by
  induction xs with
  | nil => simp [wireBytes]
  | cons e es ih => cases e <;> simp [wireBytes, ih]

/-- The sampling events contain `n` reads, all of the selected pin, `n` delays, all of
`timestep / 128` as `delay` receives it, and no write. -/
theorem samplingEvents_observed (env : Env F) (m : Machine F) (enc : F → List Byte) (n : Nat) :
    sampledPins (samplingEvents env m n) = List.replicate n m.sensorPin ∧
      requestedDelays (samplingEvents env m n)
        = List.replicate n (toUnsignedLong (Int.tdiv m.timestep 128)) ∧
      countReads (samplingEvents env m n) = n ∧ countWrites (samplingEvents env m n) = 0 ∧
      bytesWritten (samplingEvents env m n) = 0 ∧ wireBytes enc (samplingEvents env m n) = [] := by
  induction n with
  | zero => exact ⟨rfl, rfl, rfl, rfl, rfl, rfl⟩
  | succ n ih =>
    obtain ⟨hp, hd, hr, hw, hb, hy⟩ := ih
    refine ⟨?_, ?_, ?_, ?_, ?_, ?_⟩
    · rw [samplingEvents, sampledPins_append, hp, List.replicate_succ']; rfl
    · rw [samplingEvents, requestedDelays_append, hd, List.replicate_succ']; rfl
    · rw [samplingEvents, countReads_append, hr]; rfl
    · rw [samplingEvents, countWrites_append, hw]; rfl
    · rw [samplingEvents, bytesWritten_append, hb]; rfl
    · rw [samplingEvents, wireBytes_append, hy]; rfl

/-- The sampling loop after `n` passes, exactly: `n` more reads counted, the sampling
events appended to the trace, and the `k`-th reading at index `k` for `k < n`. -/
theorem sampleLoop_exact (env : Env F) (m : Machine F) (buf : Nat → Int) (n : Nat) :
    (List.range n).foldl (sampleStep env) (m, buf) =
      ({ m with nreads := m.nreads + n, trace := m.trace ++ samplingEvents env m n },
        fun j => if j < n then reading env m j else buf j) := by
  induction n with
  | zero =>
    simp only [List.range_zero, List.foldl_nil, samplingEvents, List.append_nil, Nat.add_zero,
      Nat.not_lt_zero, if_false]
  | succ n ih =>
    rw [List.range_succ, List.foldl_append, ih, List.foldl_cons, List.foldl_nil]
    simp only [sampleStep, samplingEvents, reading, List.append_assoc, Nat.add_assoc]
    congr 1
    funext j
    by_cases h : j = n
    · subst h; simp
    · by_cases h2 : j < n
      · have : j < n + 1 := by omega
        simp [h, h2, this]
      · have : ¬ j < n + 1 := by omega
        simp [h, h2, this]

/-- The poll touches only `action` and the pending input. -/
theorem pollCommand_frame (m : Machine F) :
    (pollCommand m).sensorPin = m.sensorPin ∧ (pollCommand m).timestep = m.timestep ∧
      (pollCommand m).nreads = m.nreads ∧ (pollCommand m).trace = m.trace := by
  unfold pollCommand
  split <;> exact ⟨rfl, rfl, rfl, rfl⟩

/-- After the poll, `action` is the prior `action` or the value of a byte. -/
theorem pollCommand_action (m : Machine F) :
    (pollCommand m).action = m.action ∨ ∃ b : Byte, (pollCommand m).action = (b.val : Int) := by
  cases hrx : m.rx with
  | nil => left; rw [pollCommand_nil m hrx]
  | cons b rest => right; exact ⟨b, by rw [pollCommand_cons m b rest hrx]⟩

/-- A defined start statement: either it did nothing (`action` was not
START_ACQUISITION), or it selected an entry of `pins` and set ACQUIRING_DATA; it never
touches `timestep`, the read count or the trace. -/
theorem startStage_some (env : Env F) (m m2 : Machine F) (h : startStage env m = some m2) :
    m2.timestep = m.timestep ∧ m2.nreads = m.nreads ∧ m2.trace = m.trace ∧
      ((m.action ≠ START_ACQUISITION ∧ m2 = m) ∨
        (m.action = START_ACQUISITION ∧ m2.action = ACQUIRING_DATA ∧
          ∃ i, m2.sensorPin = env.pins i)) := by
  by_cases ha : m.action = START_ACQUISITION
  · simp only [startStage, ha, if_true, Option.map_eq_some'] at h
    obtain ⟨pin, hpin, rfl⟩ := h
    refine ⟨rfl, rfl, rfl, Or.inr ⟨ha, rfl, ?_⟩⟩
    unfold pinsAt at hpin
    split at hpin
    · exact ⟨_, (Option.some.inj hpin).symm⟩
    · exact absurd hpin (by simp)
  · rw [startStage_of_ne env m ha] at h
    cases h
    exact ⟨rfl, rfl, rfl, Or.inl ⟨ha, rfl⟩⟩

/-- The timestep statement never touches `sensorPin`, the read count or the trace, and
never leaves SET_TIMESTEP in `action`. -/
theorem timestepStage_frame (env : Env F) (m : Machine F) :
    (timestepStage env m).sensorPin = m.sensorPin ∧ (timestepStage env m).nreads = m.nreads ∧
      (timestepStage env m).trace = m.trace ∧ (timestepStage env m).action ≠ SET_TIMESTEP ∧
      ((m.action = SET_TIMESTEP ∧ (timestepStage env m).action = ACQUIRING_DATA ∧
          (timestepStage env m).timestep = (env.parseInt m.rx).1) ∨
        (m.action ≠ SET_TIMESTEP ∧ timestepStage env m = m)) := by
  by_cases ha : m.action = SET_TIMESTEP
  · rw [timestepStage_of_eq env m ha]
    exact ⟨rfl, rfl, rfl, by show ACQUIRING_DATA ≠ SET_TIMESTEP; decide, Or.inl ⟨ha, rfl, rfl⟩⟩
  · rw [timestepStage_of_ne env m ha]
    exact ⟨rfl, rfl, rfl, ha, Or.inr ⟨ha, rfl⟩⟩

end CycleLemmas

section CycleControl

variable {F : Type} [Field F]

/-- One call of `acquireData`, exactly: 128 reads counted, and the trace extended by
the sampling events followed by one write of the fit of the sample buffer. -/
theorem acquireData_eq (env : Env F) (m : Machine F) :
    acquireData env m =
      { m with
          nreads := m.nreads + 128
          trace := m.trace ++ (samplingEvents env m 128 ++
            [Event.write (linearRegression env.imul env.sqrt (sampleBuffer env m))
              sizeofArduinoData]) } := by
  have hbuf : (fun j => if j < 128 then reading env m j else (0 : Int)) = sampleBuffer env m := by
    funext j; rfl
  simp only [acquireData, sampleLoop_exact, hbuf, List.append_assoc]

end CycleControl

section StepLemmas

variable {F : Type} [Field F]

/-- A defined iteration is the composition of its four statements. -/
theorem loop_some (env : Env F) (m m' : Machine F) (h : loop env m = some m') :
    ∃ m2, startStage env (pollCommand m) = some m2 ∧
      m' = timestepStage env (acquireStage env m2) := by
  simp only [loop, Option.map_eq_some'] at h
  obtain ⟨m2, h2, rfl⟩ := h
  exact ⟨m2, h2, rfl⟩

/-- The acquire statement keeps the globals and the pending input. -/
theorem acquireStage_frame (env : Env F) (m : Machine F) :
    (acquireStage env m).action = m.action ∧ (acquireStage env m).sensorPin = m.sensorPin ∧
      (acquireStage env m).timestep = m.timestep ∧ (acquireStage env m).rx = m.rx := by
  by_cases ha : m.action = ACQUIRING_DATA
  · rw [acquireStage_of_eq env m ha, acquireData_eq]
    exact ⟨rfl, rfl, rfl, rfl⟩
  · rw [acquireStage_of_ne env m ha]
    exact ⟨rfl, rfl, rfl, rfl⟩

/-- At the end of a defined iteration `action` is neither START_ACQUISITION nor
SET_TIMESTEP, and it is ACQUIRING_DATA or what the poll left. -/
theorem loop_action (env : Env F) (m m' : Machine F) (h : loop env m = some m') :
    m'.action ≠ START_ACQUISITION ∧ m'.action ≠ SET_TIMESTEP ∧
      (m'.action = ACQUIRING_DATA ∨ m'.action = (pollCommand m).action) := by
  obtain ⟨m2, h2, rfl⟩ := loop_some env m m' h
  obtain ⟨-, -, -, hs⟩ := startStage_some env _ m2 h2
  obtain ⟨haq, -, -, -⟩ := acquireStage_frame env m2
  obtain ⟨-, -, -, hne, ht⟩ := timestepStage_frame env (acquireStage env m2)
  have h32 : ACQUIRING_DATA ≠ START_ACQUISITION := by decide
  refine ⟨?_, hne, ?_⟩
  · rcases ht with ⟨-, h3, -⟩ | ⟨-, heq⟩
    · rw [h3]; exact h32
    · rw [heq, haq]
      rcases hs with ⟨hn, rfl⟩ | ⟨-, h3, -⟩
      · exact hn
      · rw [h3]; exact h32
  · rcases ht with ⟨-, h3, -⟩ | ⟨-, heq⟩
    · exact Or.inl h3
    · rw [heq, haq]
      rcases hs with ⟨-, rfl⟩ | ⟨-, h3, -⟩
      · exact Or.inr rfl
      · exact Or.inl h3

/-- A property of the startup state that every defined iteration preserves, whatever
bytes are pending, holds in every reachable state. -/
theorem reachable_induction (env : Env F) (P : Machine F → Prop)
    (hstart : ∀ rx0, P (startup F rx0))
    (hstep : ∀ m rx m', P m → loop env { m with rx := rx } = some m' → P m')
    (m : Machine F) (h : Reachable env m) : P m := by
  obtain ⟨rx0, arrivals, hrun⟩ := h
  have key : ∀ (arrivals : List (List Byte)) (m0 m1 : Machine F),
      P m0 → run env arrivals m0 = some m1 → P m1 := by
    intro arrivals
    induction arrivals with
    | nil =>
      intro m0 m1 h0 hr
      rw [run] at hr
      cases hr
      exact h0
    | cons a later ih =>
      intro m0 m1 h0 hr
      rw [run] at hr
      cases hl : loop env { m0 with rx := m0.rx ++ a } with
      | none => rw [hl] at hr; exact absurd hr (by simp)
      | some m' =>
        rw [hl, Option.some_bind] at hr
        exact ih m' m1 (hstep m0 _ m' h0 hl) hr
  exact key arrivals _ m (hstart rx0) hrun

/-- Between iterations `action` is never START_ACQUISITION or SET_TIMESTEP, and it is
the value of some byte. -/
theorem reachable_action (env : Env F) (m : Machine F) (h : Reachable env m) :
    m.action ≠ START_ACQUISITION ∧ m.action ≠ SET_TIMESTEP ∧
      ∃ b : Byte, m.action = (b.val : Int) := by
  refine reachable_induction env
    (fun m => m.action ≠ START_ACQUISITION ∧ m.action ≠ SET_TIMESTEP ∧
      ∃ b : Byte, m.action = (b.val : Int)) ?_ ?_ m h
  · intro rx0
    exact ⟨by show (0 : Int) ≠ 2; decide, by show (0 : Int) ≠ 4; decide, 0, rfl⟩
  · intro m rx m' hP hl
    obtain ⟨h2, h4, h3⟩ := loop_action env _ m' hl
    refine ⟨h2, h4, ?_⟩
    rcases h3 with h3 | h3
    · exact ⟨3, by rw [h3]; rfl⟩
    · rw [h3]
      rcases pollCommand_action ({ m with rx := rx } : Machine F) with hp | hp
      · rw [hp]; exact hP.2.2
      · exact hp

end StepLemmas

section CycleClaims

variable {F : Type} [Field F]

/-- C11. Record size and order: one call of `acquireData` extends the trace by the
sampling events, which write nothing, followed by exactly one write, of
`sizeof(arduinoData) = 12` bytes, of the record that `linearRegression` returns on the
128 readings of this cycle; with each `float` encoded on 4 bytes, the bytes sent are the
encodings of slope, intercept and uncertainty in this order, 12 bytes in all. -/
theorem acquireData_record (env : Env F) (m : Machine F) (enc : F → List Byte)
    (henc : ∀ x, (enc x).length = 4) :
    ∃ evs results, (acquireData env m).trace = m.trace ++ evs ∧
      evs = samplingEvents env m 128 ++ [Event.write results 12] ∧
      results = linearRegression env.imul env.sqrt (sampleBuffer env m) ∧
      countWrites evs = 1 ∧ bytesWritten evs = 12 ∧
      wireBytes enc evs = enc results.slope ++ enc results.intercept ++ enc results.uncertainty ∧
      (wireBytes enc evs).length = 12 := by
  obtain ⟨-, -, -, hw, hb, hy⟩ := samplingEvents_observed env m enc 128
  have hlen : ∀ r : arduinoData F, (recordBytes enc r).length = 12 := by
    intro r
    simp [recordBytes, henc]
  have hwire : wireBytes enc (samplingEvents env m 128 ++
      [Event.write (linearRegression env.imul env.sqrt (sampleBuffer env m)) 12]) =
      recordBytes enc (linearRegression env.imul env.sqrt (sampleBuffer env m)) := by
    rw [wireBytes_append, hy]
    simp only [wireBytes, List.nil_append, List.append_nil]
    exact List.take_of_length_le (le_of_eq (hlen _))
  refine ⟨_, _, ?_, rfl, rfl, ?_, ?_, ?_, ?_⟩
  · rw [acquireData_eq]; rfl
  · rw [countWrites_append, hw]; rfl
  · rw [bytesWritten_append, hb]; rfl
  · rw [hwire]; rfl
  · rw [hwire]; exact hlen _

/-- Instance of C11: a cycle from the startup state on the demonstration board, every
`float` encoded as four zero bytes. -/
theorem acquireData_record_witness :
    (∀ x : ℚ, ((fun _ : ℚ => ([0, 0, 0, 0] : List Byte)) x).length = 4) ∧
    ∃ evs results, (acquireData (demoEnv id) (startup ℚ [])).trace
        = (startup ℚ []).trace ++ evs ∧
      evs = samplingEvents (demoEnv id) (startup ℚ []) 128 ++ [Event.write results 12] ∧
      results = linearRegression (demoEnv (id : ℚ → ℚ)).imul (demoEnv (id : ℚ → ℚ)).sqrt
        (sampleBuffer (demoEnv id) (startup ℚ [])) ∧
      countWrites evs = 1 ∧ bytesWritten evs = 12 ∧
      wireBytes (fun _ : ℚ => ([0, 0, 0, 0] : List Byte)) evs =
        (fun _ : ℚ => ([0, 0, 0, 0] : List Byte)) results.slope ++
        (fun _ : ℚ => ([0, 0, 0, 0] : List Byte)) results.intercept ++
        (fun _ : ℚ => ([0, 0, 0, 0] : List Byte)) results.uncertainty ∧
      (wireBytes (fun _ : ℚ => ([0, 0, 0, 0] : List Byte)) evs).length = 12 :=
  ⟨fun _ => rfl,
    acquireData_record (demoEnv id) (startup ℚ []) (fun _ => [0, 0, 0, 0]) (fun _ => rfl)⟩

/-- The argument `timestep / 128` as `delay` receives it: unchanged when
`timestep > -128`, increased by `2^32` when `timestep ≤ -128`. -/
theorem delay_argument (T : Int) :
    (-128 < T → toUnsignedLong (Int.tdiv T 128) = Int.tdiv T 128) ∧
      (T ≤ -128 → toUnsignedLong (Int.tdiv T 128) = 4294967296 + Int.tdiv T 128) := by
  have hneg : T < 0 → Int.tdiv T 128 = -((-T) / 128) := by
    intro h
    have h1 : Int.tdiv (-T) 128 = (-T) / 128 := Int.tdiv_eq_ediv (by omega) (by decide)
    have h2 : Int.tdiv (-(-T)) 128 = -(Int.tdiv (-T) 128) := Int.neg_tdiv (-T) 128
    rw [neg_neg, h1] at h2
    exact h2
  have hpos : 0 ≤ T → Int.tdiv T 128 = T / 128 := fun h => Int.tdiv_eq_ediv h (by decide)
  constructor
  · intro h
    have hnn : ¬ Int.tdiv T 128 < 0 := by
      by_cases h0 : 0 ≤ T
      · rw [hpos h0]; omega
      · rw [hneg (by omega)]; omega
    simp only [toUnsignedLong, hnn, if_false]
  · intro h
    have hlt : Int.tdiv T 128 < 0 := by rw [hneg (by omega)]; omega
    simp only [toUnsignedLong, hlt, if_true]
    omega

/-- C14 fails as stated: with `timestep = -1000`, a state the sketch reaches when the
decimal-integer read returns `-1000` after the byte `4`, one call of `acquireData`
requests 128 delays of `4294967289 = 2^32 - 7`, whereas `timestep / 128` is `-7`. -/
theorem delay_negative_timestep_counterexample :
    Reachable ({ demoEnv (id : ℚ → ℚ) with parseInt := fun _ => (-1000, []) })
        { startup ℚ [] with timestep := -1000, action := ACQUIRING_DATA } ∧
      requestedDelays (acquireData ({ demoEnv (id : ℚ → ℚ) with parseInt := fun _ => (-1000, []) })
          { startup ℚ [] with timestep := -1000, action := ACQUIRING_DATA }).trace
        = List.replicate 128 4294967289 ∧
      Int.tdiv (-1000) 128 = -7 := by
  refine ⟨⟨[], [[4]], rfl⟩, ?_, by decide⟩
  obtain ⟨-, hd, -, -, -, -⟩ := samplingEvents_observed
    ({ demoEnv (id : ℚ → ℚ) with parseInt := fun _ => (-1000, []) })
    { startup ℚ [] with timestep := -1000, action := ACQUIRING_DATA } (fun _ => []) 128
  have hconv : toUnsignedLong (Int.tdiv (-1000) 128) = 4294967289 := by decide
  rw [acquireData_eq]
  change requestedDelays (([] : List (Event ℚ)) ++ _) = _
  rw [requestedDelays_append, requestedDelays_append, hd]
  change [] ++ (List.replicate 128 (toUnsignedLong (Int.tdiv (-1000) 128)) ++ []) = _
  rw [hconv, List.nil_append, List.append_nil]

/-- C14, amended. Sampler contract: one call of `acquireData` makes exactly 128 analog
reads, all on the selected `sensorPin`, each followed by a call of `delay` with
`timestep / 128` (division truncating toward zero) converted to `unsigned long`: the
value `timestep / 128` itself when `timestep > -128`, and `2^32 + timestep / 128` when
`timestep ≤ -128`; after `n` passes of its loop the buffer holds the `k`-th reading at
index `k` for every `k < n` and is otherwise untouched, so the indices are filled in
increasing order; the record written is `linearRegression` of exactly those 128
readings; the pending serial input, `action`, `sensorPin` and `timestep` are as
before. -/
theorem acquireData_sampler (env : Env F) (m : Machine F) :
    (acquireData env m).trace = m.trace ++ (samplingEvents env m 128 ++
        [Event.write (linearRegression env.imul env.sqrt (sampleBuffer env m))
          sizeofArduinoData]) ∧
      countReads (samplingEvents env m 128) = 128 ∧
      sampledPins (samplingEvents env m 128) = List.replicate 128 m.sensorPin ∧
      requestedDelays (samplingEvents env m 128)
        = List.replicate 128 (toUnsignedLong (Int.tdiv m.timestep 128)) ∧
      (-128 < m.timestep →
        requestedDelays (samplingEvents env m 128)
          = List.replicate 128 (Int.tdiv m.timestep 128)) ∧
      (m.timestep ≤ -128 →
        requestedDelays (samplingEvents env m 128)
          = List.replicate 128 (4294967296 + Int.tdiv m.timestep 128)) ∧
      (∀ (n : Nat) (buf : Nat → Int),
        ((List.range n).foldl (sampleStep env) (m, buf)).2
          = fun j => if j < n then env.analogRead (m.nreads + j) m.sensorPin else buf j) ∧
      (∀ k : Fin 128, sampleBuffer env m k.val = env.analogRead (m.nreads + k.val) m.sensorPin) ∧
      (acquireData env m).rx = m.rx ∧ (acquireData env m).action = m.action ∧
      (acquireData env m).sensorPin = m.sensorPin ∧
      (acquireData env m).timestep = m.timestep := by
  obtain ⟨hp, hd, hr, -, -, -⟩ := samplingEvents_observed env m (fun _ => []) 128
  obtain ⟨hsmall, hlarge⟩ := delay_argument m.timestep
  refine ⟨?_, hr, hp, hd, ?_, ?_, ?_, ?_, ?_, ?_, ?_, ?_⟩
  · rw [acquireData_eq]
  · intro h
    rw [hd, hsmall h]
  · intro h
    rw [hd, hlarge h]
  · intro n buf
    rw [sampleLoop_exact]
    rfl
  · intro k
    simp [sampleBuffer, reading, k.isLt]
  all_goals rw [acquireData_eq]

/-- Instance of C14 as amended: a cycle from the startup state, whose `timestep` is
1000, requests 128 delays of 7; and a cycle with `timestep = -1000` requests 128 delays
of `2^32 - 7`. -/
theorem acquireData_sampler_witness :
    ((-128 : Int) < (startup ℚ []).timestep ∧
      ({ startup ℚ [] with timestep := -1000 } : Machine ℚ).timestep ≤ -128) ∧
    (requestedDelays (samplingEvents (demoEnv (id : ℚ → ℚ)) (startup ℚ []) 128)
        = List.replicate 128 (Int.tdiv (startup ℚ []).timestep 128) ∧
      requestedDelays (samplingEvents (demoEnv (id : ℚ → ℚ))
          { startup ℚ [] with timestep := -1000 } 128)
        = List.replicate 128 (4294967296 +
            Int.tdiv ({ startup ℚ [] with timestep := -1000 } : Machine ℚ).timestep 128)) :=
  ⟨⟨by decide, by decide⟩,
    (acquireData_sampler (demoEnv id) (startup ℚ [])).2.2.2.2.1 (by decide),
    (acquireData_sampler (demoEnv id)
      { startup ℚ [] with timestep := -1000 }).2.2.2.2.2.1 (by decide)⟩

/-- C17. Startup is idle: the state after `setup()` has `action = 0`, which is not
ACQUIRING_DATA, and `timestep = 1000`; with no serial input, any number of iterations
from it is defined and leaves the whole state as it is, the trace still empty: no
analog read, no byte written. -/
theorem startup_idle (env : Env F) (k : Nat) :
    (startup F []).action ≠ ACQUIRING_DATA ∧ (startup F []).timestep = 1000 ∧
      run env (List.replicate k []) (startup F []) = some (startup F []) ∧
      (startup F []).trace = [] ∧ countReads (startup F []).trace = 0 ∧
      bytesWritten (startup F []).trace = 0 := by
  refine ⟨by show (0 : Int) ≠ 3; decide, rfl, ?_, rfl, rfl, rfl⟩
  exact run_inert env _ rfl (by show (0 : Int) ≠ 2; decide) (by show (0 : Int) ≠ 3; decide)
    (by show (0 : Int) ≠ 4; decide) k

/-- C18. Pacing budget: for `timestep = T ≥ 0`, one call of `acquireData` requests 128
delays of `T / 128` each; their sum is `128 * (T / 128)`, at most `T` and more than
`T - 128`; the sum is `T` exactly when 128 divides `T`; and when `T < 128` every delay
requested is `0`. -/
theorem acquireData_pacing (env : Env F) (m : Machine F) (hT : 0 ≤ m.timestep) :
    requestedDelays (acquireData env m).trace
        = requestedDelays m.trace ++ List.replicate 128 (Int.tdiv m.timestep 128) ∧
      (List.replicate 128 (Int.tdiv m.timestep 128)).sum = 128 * (Int.tdiv m.timestep 128) ∧
      Int.tdiv m.timestep 128 = m.timestep / 128 ∧
      128 * (Int.tdiv m.timestep 128) ≤ m.timestep ∧
      m.timestep - 128 < 128 * (Int.tdiv m.timestep 128) ∧
      (128 * (Int.tdiv m.timestep 128) = m.timestep ↔ (128 : Int) ∣ m.timestep) ∧
      (m.timestep < 128 → Int.tdiv m.timestep 128 = 0) := by
  obtain ⟨-, hd, -, -, -, -⟩ := samplingEvents_observed env m (fun _ => []) 128
  have hdiv : Int.tdiv m.timestep 128 = m.timestep / 128 :=
    Int.tdiv_eq_ediv hT (by decide)
  have hconv : toUnsignedLong (Int.tdiv m.timestep 128) = Int.tdiv m.timestep 128 := by
    have hnn : ¬ Int.tdiv m.timestep 128 < 0 := by rw [hdiv]; omega
    simp only [toUnsignedLong, hnn, if_false]
  rw [hconv] at hd
  refine ⟨?_, ?_, hdiv, ?_, ?_, ?_, ?_⟩
  · rw [acquireData_eq]
    show requestedDelays (m.trace ++ _) = _
    rw [requestedDelays_append, requestedDelays_append, hd]
    simp [requestedDelays]
  · have hsum : ∀ (n : Nat) (a : Int), (List.replicate n a).sum = (n : Int) * a := by
      intro n a
      rw [List.sum_replicate, nsmul_eq_mul]
    exact hsum 128 _
  · rw [hdiv]; omega
  · rw [hdiv]; omega
  · rw [hdiv]
    constructor
    · intro h; exact ⟨m.timestep / 128, h.symm⟩
    · intro h; omega
  · intro h; rw [hdiv]; omega

/-- Instance of C18: the default timestep 1000 gives 128 delays of 7 ms, 896 ms in all. -/
theorem acquireData_pacing_witness :
    (0 ≤ (startup ℚ []).timestep) ∧
    (requestedDelays (acquireData (demoEnv id) (startup ℚ [])).trace
        = requestedDelays (startup ℚ []).trace
          ++ List.replicate 128 (Int.tdiv (startup ℚ []).timestep 128) ∧
      (List.replicate 128 (Int.tdiv (startup ℚ []).timestep 128)).sum
        = 128 * (Int.tdiv (startup ℚ []).timestep 128) ∧
      Int.tdiv (startup ℚ []).timestep 128 = (startup ℚ []).timestep / 128 ∧
      128 * (Int.tdiv (startup ℚ []).timestep 128) ≤ (startup ℚ []).timestep ∧
      (startup ℚ []).timestep - 128 < 128 * (Int.tdiv (startup ℚ []).timestep 128) ∧
      (128 * (Int.tdiv (startup ℚ []).timestep 128) = (startup ℚ []).timestep
        ↔ (128 : Int) ∣ (startup ℚ []).timestep) ∧
      ((startup ℚ []).timestep < 128 → Int.tdiv (startup ℚ []).timestep 128 = 0)) :=
  ⟨by decide, acquireData_pacing (demoEnv id) (startup ℚ []) (by decide)⟩

end CycleClaims

section ReachableClaims

variable {F : Type} [Field F]

/-- The pins sampled by the acquire statement are those sampled before, then 128 times
the selected pin when `action` is ACQUIRING_DATA. -/
theorem acquireStage_sampledPins (env : Env F) (m : Machine F) (p : Int)
    (hp : p ∈ sampledPins (acquireStage env m).trace) :
    p ∈ sampledPins m.trace ∨ p = m.sensorPin := by
  by_cases ha : m.action = ACQUIRING_DATA
  · obtain ⟨hpins, -, -, -, -, -⟩ := samplingEvents_observed env m (fun _ => []) 128
    rw [acquireStage_of_eq env m ha, acquireData_eq] at hp
    change p ∈ sampledPins (m.trace ++ _) at hp
    rw [sampledPins_append, sampledPins_append, hpins] at hp
    simp only [sampledPins, List.append_nil, List.mem_append] at hp
    rcases hp with hp | hp
    · exact Or.inl hp
    · exact Or.inr (List.eq_of_mem_replicate hp)
  · rw [acquireStage_of_ne env m ha] at hp
    exact Or.inl hp

/-- With the byte `3` pending, an iteration is one call of `acquireData`. -/
theorem loop_acquiring_byte (env : Env F) (m : Machine F) (rest : List Byte)
    (hrx : m.rx = 3 :: rest) :
    loop env m = some (acquireData env { m with action := ACQUIRING_DATA, rx := rest }) := by
  have hp : pollCommand m = { m with action := ACQUIRING_DATA, rx := rest } :=
    pollCommand_cons m 3 rest hrx
  have h2 : (pollCommand m).action ≠ START_ACQUISITION := by
    rw [hp]; show ACQUIRING_DATA ≠ START_ACQUISITION; decide
  have h3 : (pollCommand m).action = ACQUIRING_DATA := by rw [hp]
  have h4 : (acquireData env (pollCommand m)).action ≠ SET_TIMESTEP := by
    rw [acquireData_eq, hp]; show ACQUIRING_DATA ≠ SET_TIMESTEP; decide
  rw [loop, startStage_of_ne env _ h2, Option.map_some', acquireStage_of_eq env _ h3,
    timestepStage_of_ne env _ h4, hp]

/-- C12 fails as stated: on a board whose `A0..A5` are `14..19`, the byte `3` sent to the
freshly started sketch runs a cycle that samples pin `0`, the startup value of
`sensorPin`, which is none of the six entries of `pins`. -/
theorem sampled_pin_counterexample :
    ∃ m, run (demoEnv (id : ℚ → ℚ)) [[3]] (startup ℚ []) = some m ∧
      ∃ p ∈ sampledPins m.trace, ∀ i, (demoEnv (id : ℚ → ℚ)).pins i ≠ p := by
  refine ⟨acquireData (demoEnv id) { startup ℚ [] with action := ACQUIRING_DATA, rx := [] },
    ?_, 0, ?_, ?_⟩
  · rw [run, loop_acquiring_byte (demoEnv id) _ [] rfl, Option.some_bind, run]
  · obtain ⟨hpins, -, -, -, -, -⟩ := samplingEvents_observed (demoEnv (id : ℚ → ℚ))
      { startup ℚ [] with action := ACQUIRING_DATA, rx := [] } (fun _ => []) 128
    rw [acquireData_eq]
    change (0 : Int) ∈ sampledPins (([] : List (Event ℚ)) ++ _)
    rw [sampledPins_append, sampledPins_append, hpins]
    simp [sampledPins, startup]
  · intro i
    show (14 : Int) + (i.val : Int) ≠ 0
    omega

/-- C12, amended. In every state that iterations of `loop`, each of them defined,
produce from the startup state (so on any serial input in which every
START_ACQUISITION is followed by a channel byte in `0..5`), `sensorPin` is the startup
value `0` or one of the six entries of `pins`, and so is the pin of every sample taken
so far. -/
theorem reachable_sampled_pin (env : Env F) (m : Machine F) (h : Reachable env m) :
    (m.sensorPin = 0 ∨ ∃ i, m.sensorPin = env.pins i) ∧
      ∀ p ∈ sampledPins m.trace, p = 0 ∨ ∃ i, p = env.pins i := by
  refine reachable_induction env
    (fun m => (m.sensorPin = 0 ∨ ∃ i, m.sensorPin = env.pins i) ∧
      ∀ p ∈ sampledPins m.trace, p = 0 ∨ ∃ i, p = env.pins i) ?_ ?_ m h
  · intro rx0
    exact ⟨Or.inl rfl, fun p hp => by simp [startup, sampledPins] at hp⟩
  · intro m rx m' hP hl
    obtain ⟨hpin, htr⟩ := hP
    obtain ⟨m2, h2, rfl⟩ := loop_some env _ m' hl
    obtain ⟨hps, -, -, hpt⟩ := pollCommand_frame ({ m with rx := rx } : Machine F)
    obtain ⟨-, -, h2t, hs⟩ := startStage_some env _ m2 h2
    obtain ⟨-, haqp, -, -⟩ := acquireStage_frame env m2
    obtain ⟨htp, -, htt, -, -⟩ := timestepStage_frame env (acquireStage env m2)
    have hpin2 : m2.sensorPin = 0 ∨ ∃ i, m2.sensorPin = env.pins i := by
      rcases hs with ⟨-, rfl⟩ | ⟨-, -, hi⟩
      · rw [hps]; exact hpin
      · exact Or.inr hi
    refine ⟨by rw [htp, haqp]; exact hpin2, ?_⟩
    intro p hp
    rw [htt] at hp
    rcases acquireStage_sampledPins env m2 p hp with hp | hp
    · rw [h2t, hpt] at hp
      exact htr p hp
    · rw [hp]; exact hpin2

/-- With the bytes `2, c` pending, `c ≤ 5`, an iteration selects `pins[c]` and is one
call of `acquireData`. -/
theorem loop_start_byte (env : Env F) (m : Machine F) (c : Byte) (rest : List Byte)
    (hc : c.val ≤ 5) (hrx : m.rx = 2 :: c :: rest) :
    loop env m = some (acquireData env
      { m with
          sensorPin := env.pins ⟨c.val, Nat.lt_succ_of_le hc⟩
          action := ACQUIRING_DATA
          rx := rest }) := by
  have h4 : ∀ m2 : Machine F, m2.action = ACQUIRING_DATA →
      (acquireData env m2).action ≠ SET_TIMESTEP := by
    intro m2 h
    rw [acquireData_eq]
    show m2.action ≠ SET_TIMESTEP
    rw [h]; decide
  rw [loop, pollCommand_cons m 2 (c :: rest) hrx, startStage_valid env _ c rest hc rfl rfl,
    Option.map_some', acquireStage_of_eq env _ rfl, timestepStage_of_ne env _ (h4 _ rfl)]

/-- On the demonstration board the bytes `2, 3` sent to the freshly started sketch lead
to a reachable state in which 128 samples have been taken, all on pin `17 = A3`. -/
theorem demo_start_reachable :
    Reachable (demoEnv (id : ℚ → ℚ))
        (acquireData (demoEnv id)
          { startup ℚ [] with sensorPin := 17, action := ACQUIRING_DATA }) ∧
      sampledPins (acquireData (demoEnv (id : ℚ → ℚ))
          { startup ℚ [] with sensorPin := 17, action := ACQUIRING_DATA }).trace
        = List.replicate 128 17 := by
  constructor
  · refine ⟨[], [[2, 3]], ?_⟩
    rw [run, loop_start_byte (demoEnv id) _ 3 [] (by decide) rfl, Option.some_bind, run]
    rfl
  · obtain ⟨hpins, -, -, -, -, -⟩ := samplingEvents_observed (demoEnv (id : ℚ → ℚ))
      { startup ℚ [] with sensorPin := 17, action := ACQUIRING_DATA } (fun _ => []) 128
    rw [acquireData_eq]
    change sampledPins (([] : List (Event ℚ)) ++ _) = _
    rw [sampledPins_append, sampledPins_append, hpins]
    rfl

/-- Instance of C12 as amended: the state reached on the demonstration board by the
bytes `2, 3`, in which the 128 samples taken are all on pin `17 = A3`. -/
theorem reachable_sampled_pin_witness :
    (Reachable (demoEnv (id : ℚ → ℚ))
        (acquireData (demoEnv id)
          { startup ℚ [] with sensorPin := 17, action := ACQUIRING_DATA }) ∧
      sampledPins (acquireData (demoEnv (id : ℚ → ℚ))
          { startup ℚ [] with sensorPin := 17, action := ACQUIRING_DATA }).trace
        = List.replicate 128 17) ∧
    (((acquireData (demoEnv (id : ℚ → ℚ))
          { startup ℚ [] with sensorPin := 17, action := ACQUIRING_DATA }).sensorPin = 0 ∨
        ∃ i, (acquireData (demoEnv (id : ℚ → ℚ))
          { startup ℚ [] with sensorPin := 17, action := ACQUIRING_DATA }).sensorPin
            = (demoEnv (id : ℚ → ℚ)).pins i) ∧
      ∀ p ∈ sampledPins (acquireData (demoEnv (id : ℚ → ℚ))
          { startup ℚ [] with sensorPin := 17, action := ACQUIRING_DATA }).trace,
        p = 0 ∨ ∃ i, p = (demoEnv (id : ℚ → ℚ)).pins i) :=
  ⟨demo_start_reachable,
    reachable_sampled_pin (demoEnv id)
      (acquireData (demoEnv id) { startup ℚ [] with sensorPin := 17, action := ACQUIRING_DATA })
      demo_start_reachable.1⟩

/-- C13 fails as stated: when the decimal-integer read returns `-5`, the byte `4` sent to
the freshly started sketch leaves `timestep = -5`. -/
theorem timestep_negative_counterexample :
    ∃ m, run ({ demoEnv (id : ℚ → ℚ) with parseInt := fun _ => (-5, []) }) [[4]] (startup ℚ [])
        = some m ∧ m.timestep < 0 :=
  ⟨_, rfl, by decide⟩

/-- Between iterations `timestep` is the default `1000` or a value returned by the
decimal-integer read. -/
theorem reachable_timestep_value (env : Env F) (m : Machine F) (h : Reachable env m) :
    m.timestep = 1000 ∨ ∃ rx, m.timestep = (env.parseInt rx).1 := by
  refine reachable_induction env
    (fun m => m.timestep = 1000 ∨ ∃ rx, m.timestep = (env.parseInt rx).1) ?_ ?_ m h
  · intro rx0
    exact Or.inl rfl
  · intro m rx m' hP hl
    obtain ⟨m2, h2, rfl⟩ := loop_some env _ m' hl
    obtain ⟨-, hpt, -, -⟩ := pollCommand_frame ({ m with rx := rx } : Machine F)
    obtain ⟨h2t, -, -, -⟩ := startStage_some env _ m2 h2
    obtain ⟨-, -, haqt, -⟩ := acquireStage_frame env m2
    obtain ⟨-, -, -, -, ht⟩ := timestepStage_frame env (acquireStage env m2)
    rcases ht with ⟨-, -, hv⟩ | ⟨-, heq⟩
    · exact Or.inr ⟨_, hv⟩
    · rw [heq, haqt, h2t, hpt]; exact hP

/-- C13, amended. If the decimal-integer read never returns a negative value, then in
every state reachable from the startup state `timestep ≥ 0`: it is the default `1000` or
a value that read returned. -/
theorem reachable_timestep_nonneg (env : Env F) (m : Machine F)
    (hnn : ∀ rx, 0 ≤ (env.parseInt rx).1) (h : Reachable env m) :
    0 ≤ m.timestep ∧ (m.timestep = 1000 ∨ ∃ rx, m.timestep = (env.parseInt rx).1) := by
  refine ⟨?_, reachable_timestep_value env m h⟩
  rcases reachable_timestep_value env m h with h1 | ⟨rx, hrx⟩
  · rw [h1]; decide
  · rw [hrx]; exact hnn rx

/-- Instance of C13 as amended: the demonstration board, whose integer read always
returns 500, after the byte `4`. -/
theorem reachable_timestep_nonneg_witness :
    ((∀ rx, 0 ≤ ((demoEnv (id : ℚ → ℚ)).parseInt rx).1) ∧
      Reachable (demoEnv (id : ℚ → ℚ))
        { startup ℚ [] with timestep := 500, action := ACQUIRING_DATA }) ∧
    (0 ≤ ({ startup ℚ [] with timestep := 500, action := ACQUIRING_DATA } : Machine ℚ).timestep ∧
      (({ startup ℚ [] with timestep := 500, action := ACQUIRING_DATA } : Machine ℚ).timestep
          = 1000 ∨
        ∃ rx, ({ startup ℚ [] with timestep := 500, action := ACQUIRING_DATA } : Machine ℚ).timestep
          = ((demoEnv (id : ℚ → ℚ)).parseInt rx).1)) :=
  ⟨⟨fun _ => show (0 : Int) ≤ 500 by decide, ⟨[], [[4]], rfl⟩⟩,
    reachable_timestep_nonneg (demoEnv id)
      { startup ℚ [] with timestep := 500, action := ACQUIRING_DATA }
      (fun _ => show (0 : Int) ≤ 500 by decide) ⟨[], [[4]], rfl⟩⟩

end ReachableClaims

section IterationClaims

variable {F : Type} [Field F]

/-- C15 fails as stated: the byte `4` sent to the freshly started sketch ends the
iteration with `action = ACQUIRING_DATA` although no cycle ran in it (the trace is as
before: no read, no write). -/
theorem set_timestep_skips_cycle_counterexample :
    ∃ m', loop (demoEnv (id : ℚ → ℚ)) (startup ℚ [4]) = some m' ∧
      m'.action = ACQUIRING_DATA ∧ m'.trace = (startup ℚ [4]).trace ∧
      countReads m'.trace = 0 ∧ countWrites m'.trace = 0 :=
  ⟨_, rfl, rfl, rfl, rfl, rfl⟩

/-- C15, amended. In every defined iteration of `loop`: if the command in effect after
the poll is SET_TIMESTEP, the iteration ends with `action = ACQUIRING_DATA` and runs no
cycle; otherwise, if it ends with `action = ACQUIRING_DATA` (after START_ACQUISITION,
after the byte ACQUIRING_DATA, or with no byte while acquiring) exactly one cycle was
performed in it (128 reads, one record); and if it does not end with
`action = ACQUIRING_DATA`, no cycle was performed. -/
theorem loop_cycle_level (env : Env F) (m m' : Machine F) (h : loop env m = some m') :
    ((pollCommand m).action = SET_TIMESTEP →
        m'.action = ACQUIRING_DATA ∧ m'.trace = m.trace ∧ m'.nreads = m.nreads) ∧
      ((pollCommand m).action ≠ SET_TIMESTEP → m'.action = ACQUIRING_DATA →
        ∃ evs, m'.trace = m.trace ++ evs ∧ countReads evs = 128 ∧ countWrites evs = 1) ∧
      (m'.action ≠ ACQUIRING_DATA → m'.trace = m.trace ∧ m'.nreads = m.nreads) := by
  obtain ⟨m2, h2, rfl⟩ := loop_some env m m' h
  obtain ⟨-, -, hpn, hpt⟩ := pollCommand_frame m
  obtain ⟨-, h2n, h2t, hs⟩ := startStage_some env _ m2 h2
  obtain ⟨haq, -, -, -⟩ := acquireStage_frame env m2
  obtain ⟨-, htn, htt, -, ht⟩ := timestepStage_frame env (acquireStage env m2)
  have h42 : SET_TIMESTEP ≠ START_ACQUISITION := by decide
  have h43 : SET_TIMESTEP ≠ ACQUIRING_DATA := by decide
  have h34 : ACQUIRING_DATA ≠ SET_TIMESTEP := by decide
  -- the case of SET_TIMESTEP: neither the start nor the acquire statement fires
  have hset : (pollCommand m).action = SET_TIMESTEP →
      (timestepStage env (acquireStage env m2)).action = ACQUIRING_DATA ∧
        (timestepStage env (acquireStage env m2)).trace = m.trace ∧
        (timestepStage env (acquireStage env m2)).nreads = m.nreads := by
    intro h4
    have hm2 : m2 = pollCommand m := by
      rcases hs with ⟨-, e⟩ | ⟨e, -⟩
      · exact e
      · exact absurd (h4.symm.trans e) h42
    have hna : m2.action ≠ ACQUIRING_DATA := by rw [hm2, h4]; exact h43
    rw [acquireStage_of_ne env m2 hna] at ht htt htn ⊢
    rcases ht with ⟨-, h3, -⟩ | ⟨hn, -⟩
    · exact ⟨h3, by rw [htt, h2t, hpt], by rw [htn, h2n, hpn]⟩
    · exact absurd (by rw [hm2]; exact h4) hn
  -- otherwise the timestep statement does nothing
  have hother : (pollCommand m).action ≠ SET_TIMESTEP →
      timestepStage env (acquireStage env m2) = acquireStage env m2 := by
    intro hn4
    have : m2.action ≠ SET_TIMESTEP := by
      rcases hs with ⟨-, e⟩ | ⟨-, e, -⟩
      · rw [e]; exact hn4
      · rw [e]; exact h34
    exact timestepStage_of_ne env _ (by rw [haq]; exact this)
  refine ⟨hset, ?_, ?_⟩
  · intro hn4 h3
    rw [hother hn4] at h3 ⊢
    rw [haq] at h3
    obtain ⟨-, -, -, -, -, evs, he, hr, hw, -⟩ := acquireData_frame env m2
    rw [acquireStage_of_eq env m2 h3]
    exact ⟨evs, by rw [he, h2t, hpt], hr, hw⟩
  · intro hn3
    by_cases h4 : (pollCommand m).action = SET_TIMESTEP
    · exact absurd (hset h4).1 hn3
    · rw [hother h4] at hn3 ⊢
      rw [haq] at hn3
      rw [acquireStage_of_ne env m2 hn3]
      exact ⟨by rw [h2t, hpt], by rw [h2n, hpn]⟩

/-- Instance of C15 as amended: the byte `4` sent to the freshly started sketch sets
ACQUIRING_DATA and runs no cycle in that iteration. -/
theorem loop_cycle_level_witness :
    (loop (demoEnv (id : ℚ → ℚ)) (startup ℚ [4])
        = some { startup ℚ [] with timestep := 500, action := ACQUIRING_DATA } ∧
      (pollCommand (startup ℚ [4])).action = SET_TIMESTEP) ∧
    (({ startup ℚ [] with timestep := 500, action := ACQUIRING_DATA } : Machine ℚ).action
        = ACQUIRING_DATA ∧
      ({ startup ℚ [] with timestep := 500, action := ACQUIRING_DATA } : Machine ℚ).trace
        = (startup ℚ [4]).trace ∧
      ({ startup ℚ [] with timestep := 500, action := ACQUIRING_DATA } : Machine ℚ).nreads
        = (startup ℚ [4]).nreads) :=
  ⟨⟨rfl, rfl⟩,
    (loop_cycle_level (demoEnv id) (startup ℚ [4])
      { startup ℚ [] with timestep := 500, action := ACQUIRING_DATA } rfl).1 rfl⟩

/-- An iteration in which the command in effect after the poll is not SET_TIMESTEP
leaves `timestep` as it was; one in which it is not START_ACQUISITION leaves
`sensorPin` as it was. -/
theorem loop_frame_of_poll (env : Env F) (m m' : Machine F) (h : loop env m = some m') :
    ((pollCommand m).action ≠ SET_TIMESTEP → m'.timestep = m.timestep) ∧
      ((pollCommand m).action ≠ START_ACQUISITION → m'.sensorPin = m.sensorPin) := by
  obtain ⟨m2, h2, rfl⟩ := loop_some env m m' h
  obtain ⟨hps, hpt, -, -⟩ := pollCommand_frame m
  obtain ⟨h2t, -, -, hs⟩ := startStage_some env _ m2 h2
  obtain ⟨haq, haqp, haqt, -⟩ := acquireStage_frame env m2
  obtain ⟨htp, -, -, -, ht⟩ := timestepStage_frame env (acquireStage env m2)
  have h34 : ACQUIRING_DATA ≠ SET_TIMESTEP := by decide
  constructor
  · intro hn4
    have : m2.action ≠ SET_TIMESTEP := by
      rcases hs with ⟨-, e⟩ | ⟨-, e, -⟩
      · rw [e]; exact hn4
      · rw [e]; exact h34
    rw [timestepStage_of_ne env _ (by rw [haq]; exact this), haqt, h2t, hpt]
  · intro hn2
    rw [htp, haqp]
    rcases hs with ⟨-, e⟩ | ⟨e, -⟩
    · rw [e, hps]
    · exact absurd e hn2

/-- C16. Frame of the configuration: from any state reachable from the startup state,
an iteration of `loop` (cycle included) whose pending input does not begin with the byte
`4` (an empty input included) leaves `timestep` unchanged, and one whose pending input
does not begin with the byte `2` leaves `sensorPin` unchanged. -/
theorem loop_config_frame (env : Env F) (m m' : Machine F) (arrival : List Byte)
    (hreach : Reachable env m) (h : loop env { m with rx := m.rx ++ arrival } = some m') :
    ((∀ rest, m.rx ++ arrival ≠ 4 :: rest) → m'.timestep = m.timestep) ∧
      ((∀ rest, m.rx ++ arrival ≠ 2 :: rest) → m'.sensorPin = m.sensorPin) := by
  obtain ⟨hr2, hr4, -⟩ := reachable_action env m hreach
  obtain ⟨hft, hfp⟩ := loop_frame_of_poll env _ m' h
  have hpoll : ∀ (c : Byte) (l : List Byte), m.action ≠ (c.val : Int) →
      (∀ rest, l ≠ c :: rest) →
      (pollCommand ({ m with rx := l } : Machine F)).action ≠ (c.val : Int) := by
    intro c l hc hne
    cases l with
    | nil => rw [pollCommand_nil _ rfl]; exact hc
    | cons b rest =>
      rw [pollCommand_cons _ b rest rfl]
      show (b.val : Int) ≠ (c.val : Int)
      intro hbc
      have hv : b.val = c.val := by exact_mod_cast hbc
      exact hne rest (by rw [Fin.ext hv])
  exact ⟨fun h4 => hft (hpoll 4 _ hr4 h4), fun h2 => hfp (hpoll 2 _ hr2 h2)⟩

/-- Instance of C16: the freshly started sketch receives the byte `1`; `timestep` and
`sensorPin` are as before. -/
theorem loop_config_frame_witness :
    (Reachable (demoEnv (id : ℚ → ℚ)) (startup ℚ []) ∧
      loop (demoEnv (id : ℚ → ℚ)) { startup ℚ [] with rx := (startup ℚ []).rx ++ [1] }
        = some { startup ℚ [] with action := STOP_ACQUISITION } ∧
      (∀ rest, (startup ℚ []).rx ++ [1] ≠ (4 : Byte) :: rest) ∧
      (∀ rest, (startup ℚ []).rx ++ [1] ≠ (2 : Byte) :: rest)) ∧
    (({ startup ℚ [] with action := STOP_ACQUISITION } : Machine ℚ).timestep
        = (startup ℚ []).timestep ∧
      ({ startup ℚ [] with action := STOP_ACQUISITION } : Machine ℚ).sensorPin
        = (startup ℚ []).sensorPin) :=
  ⟨⟨⟨[], [], rfl⟩, rfl, fun _ h => absurd (List.cons.inj h).1 (by decide),
      fun _ h => absurd (List.cons.inj h).1 (by decide)⟩,
    (loop_config_frame (demoEnv id) (startup ℚ [])
      { startup ℚ [] with action := STOP_ACQUISITION } [1] ⟨[], [], rfl⟩ rfl).1
        (fun _ h => absurd (List.cons.inj h).1 (by decide)),
    (loop_config_frame (demoEnv id) (startup ℚ [])
      { startup ℚ [] with action := STOP_ACQUISITION } [1] ⟨[], [], rfl⟩ rfl).2
        (fun _ h => absurd (List.cons.inj h).1 (by decide))⟩

/-- C19. Transient opcodes never persist: whatever the prior state, a defined iteration
of `loop` never ends with `action` equal to START_ACQUISITION or SET_TIMESTEP, and when
one of the two is in effect after the poll it ends with ACQUIRING_DATA; so in every
state reachable from the startup state `action` is the startup value `0`,
STOP_ACQUISITION, ACQUIRING_DATA, or the value of a byte that is none of `1, 2, 3, 4`. -/
theorem loop_transient_opcodes (env : Env F) :
    (∀ m m', loop env m = some m' →
        m'.action ≠ START_ACQUISITION ∧ m'.action ≠ SET_TIMESTEP ∧
        ((pollCommand m).action = START_ACQUISITION ∨ (pollCommand m).action = SET_TIMESTEP →
          m'.action = ACQUIRING_DATA)) ∧
      (∀ m, Reachable env m →
        m.action = 0 ∨ m.action = STOP_ACQUISITION ∨ m.action = ACQUIRING_DATA ∨
          ∃ b : Byte, m.action = (b.val : Int) ∧
            b.val ≠ 1 ∧ b.val ≠ 2 ∧ b.val ≠ 3 ∧ b.val ≠ 4) := by
  constructor
  · intro m m' h
    obtain ⟨h2, h4, h3⟩ := loop_action env m m' h
    refine ⟨h2, h4, fun hp => ?_⟩
    rcases h3 with h3 | h3
    · exact h3
    · rcases hp with hp | hp
      · exact absurd (h3.trans hp) h2
      · exact absurd (h3.trans hp) h4
  · intro m hreach
    obtain ⟨h2, h4, b, hb⟩ := reachable_action env m hreach
    by_cases h1 : m.action = STOP_ACQUISITION
    · exact Or.inr (Or.inl h1)
    · by_cases h3 : m.action = ACQUIRING_DATA
      · exact Or.inr (Or.inr (Or.inl h3))
      · refine Or.inr (Or.inr (Or.inr ⟨b, hb, ?_, ?_, ?_, ?_⟩))
        · intro e; exact h1 (by rw [hb, e]; rfl)
        · intro e; exact h2 (by rw [hb, e]; rfl)
        · intro e; exact h3 (by rw [hb, e]; rfl)
        · intro e; exact h4 (by rw [hb, e]; rfl)

/-- Instance of C19: the byte `4` sent to the freshly started sketch is rewritten to
ACQUIRING_DATA within the iteration, and the state produced is a reachable one. -/
theorem loop_transient_opcodes_witness :
    (loop (demoEnv (id : ℚ → ℚ)) (startup ℚ [4])
        = some { startup ℚ [] with timestep := 500, action := ACQUIRING_DATA } ∧
      ((pollCommand (startup ℚ [4])).action = START_ACQUISITION ∨
        (pollCommand (startup ℚ [4])).action = SET_TIMESTEP) ∧
      Reachable (demoEnv (id : ℚ → ℚ))
        { startup ℚ [] with timestep := 500, action := ACQUIRING_DATA }) ∧
    ((({ startup ℚ [] with timestep := 500, action := ACQUIRING_DATA } : Machine ℚ).action
          ≠ START_ACQUISITION ∧
        ({ startup ℚ [] with timestep := 500, action := ACQUIRING_DATA } : Machine ℚ).action
          ≠ SET_TIMESTEP) ∧
      ({ startup ℚ [] with timestep := 500, action := ACQUIRING_DATA } : Machine ℚ).action
          = ACQUIRING_DATA ∧
      (({ startup ℚ [] with timestep := 500, action := ACQUIRING_DATA } : Machine ℚ).action = 0 ∨
        ({ startup ℚ [] with timestep := 500, action := ACQUIRING_DATA } : Machine ℚ).action
          = STOP_ACQUISITION ∨
        ({ startup ℚ [] with timestep := 500, action := ACQUIRING_DATA } : Machine ℚ).action
          = ACQUIRING_DATA ∨
        ∃ b : Byte,
          ({ startup ℚ [] with timestep := 500, action := ACQUIRING_DATA } : Machine ℚ).action
            = (b.val : Int) ∧ b.val ≠ 1 ∧ b.val ≠ 2 ∧ b.val ≠ 3 ∧ b.val ≠ 4)) :=
  ⟨⟨rfl, Or.inr rfl, ⟨[], [[4]], rfl⟩⟩,
    ⟨((loop_transient_opcodes (demoEnv id)).1 (startup ℚ [4]) _ rfl).1,
      ((loop_transient_opcodes (demoEnv id)).1 (startup ℚ [4]) _ rfl).2.1⟩,
    ((loop_transient_opcodes (demoEnv id)).1 (startup ℚ [4]) _ rfl).2.2 (Or.inr rfl),
    (loop_transient_opcodes (demoEnv id)).2 _ ⟨[], [[4]], rfl⟩⟩

end IterationClaims

section OverflowClaims

/-- The accumulator `sumXY` on a 16-bit target, for 128 samples all equal to 1023. -/
theorem sum_mul16_saturated : (∑ i in Finset.range 128, mul16 (i : ℤ) 1023) = 57408 := by
  simp [Finset.sum_range_succ, mul16, wrap16]

/-- C20 fails on the code: for 128 samples all equal to 1023, a value of the ADC range,
the product `127 * 1023 = 129921` does not fit a signed 16-bit `int`; taken modulo
`2^16` it is `-1151`, and the accumulated `sumXY` is `57408` where the mathematical sum
of `i * y_i` is `8314944`. The products `i * i` do fit, for every `i < 128`. -/
theorem sumXY_overflows_int16 :
    ¬ fitsInt16 (127 * 1023) ∧ mul16 127 1023 = -1151 ∧
      (regressionSums mul16 (fun _ => 1023) : Sums ℚ).sumXY = 57408 ∧
      (regressionSums exactMul (fun _ => 1023) : Sums ℚ).sumXY = 8314944 ∧
      (∀ i : Fin 128, fitsInt16 ((i.val : ℤ) * (i.val : ℤ)) ∧
        mul16 (i.val : ℤ) (i.val : ℤ) = (i.val : ℤ) * (i.val : ℤ)) := by
  refine ⟨by unfold fitsInt16; decide, by decide, ?_, ?_, ?_⟩
  · rw [regressionSums, accumulate_fold]
    show (∑ i in Finset.range 128, ((mul16 (i : ℤ) 1023 : ℤ) : ℚ)) = 57408
    rw [← Int.cast_sum, sum_mul16_saturated]
    norm_num
  · rw [regressionSums, accumulate_fold]
    show (∑ i in Finset.range 128, ((exactMul (i : ℤ) 1023 : ℤ) : ℚ)) = 8314944
    have h : (∑ i in Finset.range 128, exactMul (i : ℤ) 1023) = 8314944 := by
      simp [Finset.sum_range_succ, exactMul]
    rw [← Int.cast_sum, h]
    norm_num
  · unfold fitsInt16
    decide

end OverflowClaims

section OverflowFit

end OverflowFit

end Arduino
